import Mathlib

/-!
Verification of the `@ludlovian/sqlite` convenience layer.

The development shallowly embeds the three source modules:

* `src/sqlmin.mjs` — SQL-text minifier (comment stripping, whitespace
  collapsing);
* `src/track-changes.mjs` — the change-audit trigger generator
  (`trackChanges`, `jsonChanges`, `sqlChanges`) together with a semantic
  model of the rows the generated triggers append;
* `src/index.mjs` — the `Database` class: statement resolver
  (`#getReadSQL` / `#getUpdateSQL`), hook registry
  (`#addUpdateHook` / `#removeUpdateHook` / `#hook`), and the transaction
  coalescer (`#begin` / `#commit` / `#rollback`, `autoCommit` setter,
  `#startAutoCommit` / `#stopAutoCommit`, `transaction`,
  `asyncTransaction`, `run`, `exec`), modelled as a state machine whose
  writes are abstract identifiers and whose engine interactions are
  recorded in an event log.
-/

namespace Sqlite

/-! ## SQL values

SQLite values as they appear in trigger bodies: `old.col` / `new.col`
references.  `null`, integers and text suffice for the properties proved
here; equality is decidable, which is what the SQL operator `is not`
(null-safe distinctness) computes.
-/

/-- An SQLite value: NULL, an integer, or a text string. -/
inductive SVal where
  | null : SVal
  | int (n : Int) : SVal
  | text (s : String) : SVal
deriving DecidableEq, Repr

/-- SQLite `a is not b`: null-safe "the operands are distinct".
`NULL is not NULL` is false; for non-null operands it is plain
inequality. With `SVal.null` an ordinary constructor this is exactly
decidable inequality. -/
def svalIsNot (a b : SVal) : Bool := decide (a ≠ b)

/-- SQLite `quote()` as used by the sql-replay triggers: text is wrapped
in single quotes with embedded quotes doubled, NULL prints as `NULL`,
integers print their digits. -/
def svalQuote : SVal → String
  | SVal.null => "NULL"
  | SVal.int n => toString n
  | SVal.text s => "'" ++ String.mk (s.data.flatMap (fun c => if c = '\'' then ['\'', '\''] else [c])) ++ "'"

/-! ## SQL minifier (`src/sqlmin.mjs`)

The source pipeline is

  sql.split(regex \r?\n)
     .map(line trimmed with its line comment removed)
     .filter(Boolean)
     .join(one space)
     .replace(collapse runs of two or more spaces to one)
     .replace(drop spaces between a word char and a non-word non-quote char)
     .replace(drop spaces between a non-word non-quote char and a word char)

modelled character-wise.  The last two global replaces run on
space-collapsed text, where every space run has length one; the
embeddings below implement exactly that non-overlapping left-to-right
scan.
-/

/-- The regex class backslash-w: ASCII letters, digits, underscore. -/
def isWordChar (c : Char) : Bool := c.isAlpha || c.isDigit || c = '_'

/-- The whitespace characters removed by the trim step. -/
def isJsWS (c : Char) : Bool :=
  c = ' ' || c = '\t' || c = '\n' || c = '\r' || c = '\x0b' || c = '\x0c'

/-- Split on newline characters (always at least one piece). -/
def splitNl : List Char → List (List Char)
  | [] => [[]]
  | c :: rest =>
    if c = '\n' then [] :: splitNl rest
    else
      match splitNl rest with
      | [] => [[c]]
      | l :: ls => (c :: l) :: ls

/-- A carriage return directly before the newline belongs to the
separator `\r?\n`; drop it from the piece. -/
def dropTrailingCR (l : List Char) : List Char :=
  match l.reverse with
  | '\r' :: r => r.reverse
  | _ => l

/-- `line.replace(line-comment-to-end-of-line, '')`: delete from the
first `--` to the end of the line. -/
def stripComment : List Char → List Char
  | [] => []
  | '-' :: '-' :: _ => []
  | c :: rest => c :: stripComment rest

/-- `line.trim()`. -/
def trimChars (l : List Char) : List Char :=
  ((l.dropWhile isJsWS).reverse.dropWhile isJsWS).reverse

/-- Scan for the collapse step: a space run emits a single space. -/
def collapseSpacesAux : Bool → List Char → List Char
  | _, [] => []
  | prevSpace, c :: rest =>
    if c = ' ' then
      if prevSpace then collapseSpacesAux true rest
      else ' ' :: collapseSpacesAux true rest
    else c :: collapseSpacesAux false rest

/-- Collapse every run of spaces to a single space (runs of two or more
are each one match of the global replace; runs of one are untouched;
both end up as one space). -/
def collapseSpaces (l : List Char) : List Char := collapseSpacesAux false l

/-- The third replace: remove the space between a word character and a
following non-word, non-quote character. -/
def delSpacesAfterWord : List Char → List Char
  | [] => []
  | [c] => [c]
  | [c1, c2] => [c1, c2]
  | c1 :: ' ' :: c2 :: rest =>
    if isWordChar c1 && !(isWordChar c2 || c2 = '\'' || c2 = '"') then
      c1 :: c2 :: delSpacesAfterWord rest
    else
      c1 :: delSpacesAfterWord (' ' :: c2 :: rest)
  | c1 :: c2 :: c3 :: rest => c1 :: delSpacesAfterWord (c2 :: c3 :: rest)

/-- The fourth replace: remove the space between a non-word, non-quote
character and a following word character. -/
def delSpacesBeforeWord : List Char → List Char
  | [] => []
  | [c] => [c]
  | [c1, c2] => [c1, c2]
  | c1 :: ' ' :: c2 :: rest =>
    if !(isWordChar c1 || c1 = '\'' || c1 = '"') && isWordChar c2 then
      c1 :: c2 :: delSpacesBeforeWord rest
    else
      c1 :: delSpacesBeforeWord (' ' :: c2 :: rest)
  | c1 :: c2 :: c3 :: rest => c1 :: delSpacesBeforeWord (c2 :: c3 :: rest)

/-- `sqlmin(sql)`: the full pipeline of `src/sqlmin.mjs`. -/
def sqlmin (sql : String) : String :=
  let lines := (splitNl sql.data).map (fun l => trimChars (stripComment (dropTrailingCR l)))
  let joined := List.intercalate [' '] (lines.filter (fun l => ¬ l.isEmpty))
  String.mk (delSpacesBeforeWord (delSpacesAfterWord (collapseSpaces joined)))

/-! ## Trigger generator (`src/track-changes.mjs`)

The generator is a pure function from table metadata to DDL text.  The
column metadata (`kcols` = primary-key columns ordered by `pk`,
`dcols` = remaining columns ordered by `cid`) is obtained in the source
from `pragma_table_info`; here it is an input.
-/

/-- Options of `trackChanges` as destructured in the source:
`const { dest = 'changes', type = 'json' } = opts` and
`opts.exclude ?? []`.  The source also accepts `exclude` as a
comma-separated string, normalised with `split(',')` before use; the
model takes the normalised list. -/
structure TrackOpts where
  dest : String := "changes"
  type : String := "json"
  exclude : List String := []
deriving DecidableEq, Repr

/-- The three statements `jsonChanges` pushes onto its `sql` array
(insert, delete, update trigger), mirroring the template literals of the
source line by line. -/
def jsonTriggerStmts (name dest : String) (kcols dcols : List String) : List String :=
  let cols := kcols ++ dcols
  let pk : List Nat := kcols.map (fun _ => 1) ++ dcols.map (fun _ => 0)
  let ins :=
    "create temp trigger " ++ name ++ "_track_json_ins " ++
      "after insert on " ++ name ++ " begin " ++
      "insert into " ++ dest ++ " values(null,'" ++ name ++ "',null," ++
      "json_object(" ++
      String.intercalate "," (cols.map (fun n => "'" ++ n ++ "',new." ++ n)) ++
      "),julianday());end;"
  let del :=
    "create temp trigger " ++ name ++ "_track_json_del " ++
      "after delete on " ++ name ++ " begin " ++
      "insert into " ++ dest ++ " values(null,'" ++ name ++ "'," ++
      "json_object(" ++
      String.intercalate "," (cols.map (fun n => "'" ++ n ++ "',old." ++ n)) ++
      "),null,julianday());end;"
  let upd :=
    "create temp trigger " ++ name ++ "_track_json_upd " ++
      "after update on " ++ name ++ " begin " ++
      "insert into " ++ dest ++ " " ++
      "with chgs(col,pre,post,pk) as (values " ++
      String.intercalate ","
        ((cols.zip pk).map (fun p =>
          "('" ++ p.1 ++ "',old." ++ p.1 ++ ",new." ++ p.1 ++ "," ++ toString p.2 ++ ")")) ++
      "),bef(obj) as (select json_group_object(col,pre) from chgs " ++
      "where pre is not post or pk=1)," ++
      "aft(obj) as (select json_group_object(col,post) from chgs " ++
      "where pre is not post) " ++
      "select null,'" ++ name ++ "',bef.obj,aft.obj,julianday() " ++
      "from bef,aft;end;"
  [ins, del, upd]

/-- `jsonChanges(name, dest, kcols, dcols)`: the emitted DDL,
`sql.join('')` over the three pushed statements. -/
def jsonChanges (name dest : String) (kcols dcols : List String) : String :=
  String.join (jsonTriggerStmts name dest kcols dcols)

/-- The three statements `sqlChanges` pushes onto its `sql` array
(insert, delete, update trigger) in sql-replay capture mode. -/
def sqlTriggerStmts (name dest : String) (kcols dcols : List String) : List String :=
  let cols := kcols ++ dcols
  let ins :=
    "create temp trigger " ++ name ++ "_track_sql_ins " ++
      "after insert on " ++ name ++ " begin " ++
      "insert into " ++ dest ++ " values(null," ++
      "'insert into " ++ name ++ "(" ++
      String.intercalate "," cols ++
      ") values(" ++
      String.intercalate "," (cols.map (fun n => "'||quote(new." ++ n ++ ")||'")) ++
      ")',julianday());end;"
  let del :=
    "create temp trigger " ++ name ++ "_track_sql_del " ++
      "after delete on " ++ name ++ " begin " ++
      "insert into " ++ dest ++ " values(null," ++
      "'delete from " ++ name ++ " where " ++
      String.intercalate " and " (kcols.map (fun n => n ++ "='||quote(old." ++ n ++ ")||'")) ++
      "',julianday());end;"
  let upd :=
    "create temp trigger " ++ name ++ "_track_sql_upd " ++
      "after update on " ++ name ++ " begin " ++
      "insert into " ++ dest ++ " values(null," ++
      "'update " ++ name ++ " set " ++
      String.intercalate "," (cols.map (fun n => n ++ "='||quote(new." ++ n ++ ")||'")) ++
      " where " ++
      String.intercalate " and " (kcols.map (fun n => n ++ "='||quote(old." ++ n ++ ")||'")) ++
      "',julianday());end;"
  [ins, del, upd]

/-- `sqlChanges(name, dest, kcols, dcols)`: the emitted DDL,
`sql.join('')` over the three pushed statements. -/
def sqlChanges (name dest : String) (kcols dcols : List String) : String :=
  String.join (sqlTriggerStmts name dest kcols dcols)

/-- `trackChanges(db, name, opts)` with the two `pragma_table_info`
queries already evaluated to `kcols` (columns with `pk>0`, ordered by
`pk`) and `dcols` (columns with `pk=0`, ordered by `cid`).  The source
filters `dcols` by the exclusion list only on the json branch; any
`type` other than `"json"` falls through to `sqlChanges` with the
unfiltered `dcols`. -/
def trackChanges (name : String) (kcols dcols : List String) (opts : TrackOpts) : String :=
  if opts.type = "json" then
    let xdcols := dcols.filter (fun n => ¬ opts.exclude.contains n)
    jsonChanges name opts.dest kcols xdcols
  else
    sqlChanges name opts.dest kcols dcols

/-! ## Semantics of the generated json triggers

The after-update trigger body is

  insert into dest
  with chgs(col,pre,post,pk) as (values ('c1',old.c1,new.c1,pk1), ...),
       bef(obj) as (select json_group_object(col,pre) from chgs
                    where pre is not post or pk=1),
       aft(obj) as (select json_group_object(col,post) from chgs
                    where pre is not post)
  select null,'name',bef.obj,aft.obj,julianday() from bef,aft;

`bef` and `aft` are aggregate queries without GROUP BY, so each yields
exactly one row; their cross join therefore inserts exactly one record
per updated row.  The model below reflects that: `chgs` is the VALUES
list (key columns first, flag 1; data columns after, flag 0), the
before/after objects are the filtered projections, and the record list
produced by one firing is a singleton.
-/

/-- One row of the `chgs` CTE: column name, `old.` value, `new.` value,
primary-key flag. -/
structure Chg where
  col : String
  pre : SVal
  post : SVal
  pk : Nat
deriving DecidableEq, Repr

/-- The `chgs(col,pre,post,pk)` VALUES list of the update trigger:
key columns (flag 1) followed by data columns (flag 0), in the order the
generator enumerates `[...kcols, ...dcols]`. -/
def updChgs (kcols dcols : List String) (oldR newR : String → SVal) : List Chg :=
  kcols.map (fun n => { col := n, pre := oldR n, post := newR n, pk := 1 }) ++
    dcols.map (fun n => { col := n, pre := oldR n, post := newR n, pk := 0 })

/-- The `bef` object: `json_group_object(col,pre)` over the rows with
`pre is not post or pk=1`, as an association list in row order. -/
def updBefore (kcols dcols : List String) (oldR newR : String → SVal) : List (String × SVal) :=
  ((updChgs kcols dcols oldR newR).filter
      (fun c => svalIsNot c.pre c.post || c.pk == 1)).map (fun c => (c.col, c.pre))

/-- The `aft` object: `json_group_object(col,post)` over the rows with
`pre is not post`, as an association list in row order. -/
def updAfter (kcols dcols : List String) (oldR newR : String → SVal) : List (String × SVal) :=
  ((updChgs kcols dcols oldR newR).filter
      (fun c => svalIsNot c.pre c.post)).map (fun c => (c.col, c.post))

/-- A change record appended to the destination table by a json trigger:
table name, before object, after object (`none` = SQL NULL). -/
structure JsonRecord where
  table : String
  before : Option (List (String × SVal))
  after : Option (List (String × SVal))
deriving DecidableEq, Repr

/-- The records one firing of the generated after-update trigger appends
for a single updated row: the `select ... from bef,aft` joins two
one-row aggregates, hence exactly one insert. -/
def updRecords (name : String) (kcols dcols : List String)
    (oldR newR : String → SVal) : List JsonRecord :=
  [{ table := name,
     before := some (updBefore kcols dcols oldR newR),
     after := some (updAfter kcols dcols oldR newR) }]

/-- The after-insert trigger's object: `json_object` over every key and
data column of the new row. -/
def insObject (kcols dcols : List String) (newR : String → SVal) : List (String × SVal) :=
  (kcols ++ dcols).map (fun n => (n, newR n))

/-- The after-delete trigger's object: `json_object` over every key and
data column of the old row. -/
def delObject (kcols dcols : List String) (oldR : String → SVal) : List (String × SVal) :=
  (kcols ++ dcols).map (fun n => (n, oldR n))

/-- The literal replay statement the sql-mode after-update trigger
stores: `update name set c=quote(new.c),... where k=quote(old.k) and ...`
over all of `cols = kcols ++ dcols` for the set list and `kcols` for the
where clause. -/
def sqlUpdReplay (name : String) (kcols cols : List String)
    (oldR newR : String → SVal) : String :=
  "update " ++ name ++ " set " ++
    String.intercalate "," (cols.map (fun c => c ++ "=" ++ svalQuote (newR c))) ++
    " where " ++
    String.intercalate " and " (kcols.map (fun c => c ++ "=" ++ svalQuote (oldR c)))

/-! ## String helpers used by the theorems -/

/-- `pat` is a prefix of `s` (decidable, character-wise). -/
def strStarts (s pat : String) : Bool := pat.data.isPrefixOf s.data

/-- Auxiliary scan: does `pat` occur inside the character list? -/
def strHasAux : List Char → List Char → Bool
  | _, [] => true
  | [], _ :: _ => false
  | c :: rest, pat => pat.isPrefixOf (c :: rest) || strHasAux rest pat

/-- `pat` occurs somewhere inside `s` (decidable, character-wise). -/
def strHas (s pat : String) : Bool := strHasAux s.data pat.data

/-! ## Statement resolver (`#getReadSQL` / `#getUpdateSQL`)

`run`, `get` and `all` accept either literal SQL or a symbolic
table/view name; the dispatch test of the source is
`nameOrSQL.indexOf(space) >= 0`.  Resolved SQL is cached in the plain
objects `#readSQL` (keyed by `[name, ...Object.keys(parms)].join(','))`
and `#updateSQL` (keyed by the name); the caches are modelled as
association lists.  `#getUpdateSQL` introspects the table with
`pragma_table_info`, keeping, in `cid` order, the columns whose names
are not `unused` or `0`; the model takes the pragma result (all column
names in `cid` order) as the `tableCols` input and applies that same
filter.
-/

/-- `nameOrSQL.indexOf(space) >= 0`. -/
def hasSpace (s : String) : Bool := s.data.contains ' '

/-- Plain-object property lookup on the SQL-text caches. -/
def cacheLookup (cache : List (String × String)) (k : String) : Option String :=
  match cache.find? (fun p => p.1 = k) with
  | some p => some p.2
  | none => none

/-- `#getReadSQL(nameOrSQL, parms)`: literal SQL (has a space) is
minified and returned; a name is expanded to a select, with a WHERE
clause over the parameter keys, cached under `[name, ...keys].join(',')`.
Returns the SQL and the updated cache. -/
def getReadSQL (cache : List (String × String)) (nameOrSQL : String)
    (parmKeys : List String) : String × List (String × String) :=
  if hasSpace nameOrSQL then (sqlmin nameOrSQL, cache)
  else
    let key := String.intercalate "," (nameOrSQL :: parmKeys)
    match cacheLookup cache key with
    | some sql => (sql, cache)
    | none =>
      let base := "select * from " ++ nameOrSQL
      let sql :=
        if parmKeys.isEmpty then base
        else base ++ " where " ++
          String.intercalate " and " (parmKeys.map (fun col => col ++ "=$" ++ col))
      (sql, (key, sql) :: cache)

/-- `#getUpdateSQL(nameOrSQL)`: literal SQL (has a space) is minified
and returned; a name is expanded to an insert over the introspected
columns (excluding names `unused` and `0`), or
`insert into name values(null)` when no column remains, cached under
the name.  Returns the SQL and the updated cache. -/
def getUpdateSQL (cache : List (String × String)) (nameOrSQL : String)
    (tableCols : List String) : String × List (String × String) :=
  if hasSpace nameOrSQL then (sqlmin nameOrSQL, cache)
  else
    match cacheLookup cache nameOrSQL with
    | some sql => (sql, cache)
    | none =>
      let cols := tableCols.filter (fun n => n ≠ "unused" && n ≠ "0")
      let sql :=
        if ¬ cols.isEmpty then
          "insert into " ++ nameOrSQL ++ "(" ++ String.intercalate "," cols ++ ")" ++
            "values(" ++ String.intercalate "," (cols.map (fun col => "$" ++ col)) ++ ")"
        else "insert into " ++ nameOrSQL ++ " values(null)"
      (sql, (nameOrSQL, sql) :: cache)

/-! ## Transaction coalescer (`src/index.mjs`)

The `Database` class is modelled as a state machine.  Writes are
abstract identifiers (`Nat`); a statement dispatched to the engine while
a transaction is open lands in `pending`, otherwise the engine
auto-commits it into `committed`.  `#commitMgr` is the fields
`delay` (the `autoCommit` interval), `active` (a BEGIN has been issued
without a matching COMMIT/ROLLBACK), `timer` (the armed Bouncer and its
`every` period; `none` once cancelled) and the auto hook registered by
`#startAutoCommit` on the pre list (its `dispose`).  Engine statements
and hook invocations are recorded in an event log.  User callbacks are
identified by `Nat` (JS function identity); the pre-hook closure of
`#startAutoCommit` is the distinguished hook `auto`, whose body is
`this.#begin(); bouncer.fire()`.
-/

/-- Hook phase: the two lists of `#hooks`. -/
inductive Phase where
  | pre : Phase
  | post : Phase
deriving DecidableEq, Repr

/-- A registered callback: a user function (compared by identity in
`#removeUpdateHook`) or the `#startAutoCommit` pre-hook closure. -/
inductive Hook where
  | user (i : Nat) : Hook
  | auto : Hook
deriving DecidableEq, Repr

/-- Observable events: user-hook invocations, engine statement
dispatch, engine-level transaction statements, and `bouncer.fire()`. -/
inductive Event where
  | call (ph : Phase) (i : Nat) (w : Nat) : Event
  | dispatch (w : Nat) : Event
  | engBegin : Event
  | engCommit : Event
  | engRollback : Event
  | timerSignal : Event
deriving DecidableEq, Repr

/-- Engine-level transaction statements (BEGIN/COMMIT/ROLLBACK). -/
def txEvent : Event → Bool
  | Event.engBegin => true
  | Event.engCommit => true
  | Event.engRollback => true
  | _ => false

/-- The connection state. -/
structure DB where
  committed : List Nat
  pending : List Nat
  active : Bool
  delay : Nat
  timer : Option Nat
  pre : List Hook
  post : List Hook
  log : List Event
deriving DecidableEq, Repr

/-- A fresh connection: no transaction, `autoCommit` off, no hooks. -/
def initDB : DB :=
  { committed := [], pending := [], active := false, delay := 0,
    timer := none, pre := [], post := [], log := [] }

/-- `#begin()`: no-op when a transaction is active, otherwise issue
BEGIN and mark active. -/
def DB.dbBegin (s : DB) : DB :=
  if s.active then s
  else { s with log := s.log ++ [Event.engBegin], active := true }

/-- `#commit()`: no-op when no transaction is active, otherwise issue
COMMIT — the pending writes become durable. -/
def DB.dbCommit (s : DB) : DB :=
  if s.active then
    { s with log := s.log ++ [Event.engCommit],
             committed := s.committed ++ s.pending, pending := [], active := false }
  else s

/-- `#rollback()`: no-op when no transaction is active, otherwise issue
ROLLBACK — the pending writes are discarded. -/
def DB.dbRollback (s : DB) : DB :=
  if s.active then
    { s with log := s.log ++ [Event.engRollback], pending := [], active := false }
  else s

/-- `#addUpdateHook` pushes onto the hook list. -/
def addHook (l : List Hook) (h : Hook) : List Hook := l ++ [h]

/-- `#removeUpdateHook` (the body of every disposer):
`this.#hooks[type] = this.#hooks[type].filter(fn => fn !== hookFn)`. -/
def removeHook (l : List Hook) (h : Hook) : List Hook :=
  l.filter (fun g => g ≠ h)

/-- Invoke one hook: a user callback is an observer (logged); the
`#startAutoCommit` closure runs `this.#begin()` and `bouncer.fire()`. -/
def DB.fireHook (s : DB) (ph : Phase) (w : Nat) (h : Hook) : DB :=
  match h with
  | Hook.user i => { s with log := s.log ++ [Event.call ph i w] }
  | Hook.auto =>
    let s1 := s.dbBegin
    { s1 with log := s1.log ++ [Event.timerSignal] }

/-- Fold a hook list over the state in registration order
(`#hook`'s forEach). -/
def fireHooks (hooks : List Hook) (ph : Phase) (w : Nat) (s : DB) : DB :=
  hooks.foldl (fun t h => t.fireHook ph w h) s

/-- `#hook(type, ...args)`. -/
def DB.firePhase (s : DB) (ph : Phase) (w : Nat) : DB :=
  fireHooks (if ph = Phase.pre then s.pre else s.post) ph w s

/-- One statement handed to the engine: inside a transaction it joins
the pending writes, otherwise the engine auto-commits it. -/
def DB.dispatchW (s : DB) (w : Nat) : DB :=
  if s.active then
    { s with pending := s.pending ++ [w], log := s.log ++ [Event.dispatch w] }
  else
    { s with committed := s.committed ++ [w], log := s.log ++ [Event.dispatch w] }

/-- `run(nameOrSQL, ...parms)`: fire the pre hooks, dispatch the
statement, fire the post hooks. -/
def DB.runW (s : DB) (w : Nat) : DB :=
  ((s.firePhase Phase.pre w).dispatchW w).firePhase Phase.post w

/-- `exec(sql)`: dispatch only — no hooks, no auto-commit processing. -/
def DB.execW (s : DB) (w : Nat) : DB := s.dispatchW w

/-- `#stopAutoCommit()`: commit, cancel the bouncer, dispose the
registered pre hook. -/
def DB.stopAutoCommit (s : DB) : DB :=
  let s1 := s.dbCommit
  { s1 with timer := none, pre := removeHook s1.pre Hook.auto }

/-- `#startAutoCommit()`: guard on a zero delay, then arm a bouncer at
the current delay and register the begin-and-signal pre hook. -/
def DB.startAutoCommit (s : DB) : DB :=
  if s.delay = 0 then s
  else { s with timer := some s.delay, pre := addHook s.pre Hook.auto }

/-- The `autoCommit` setter: no-op on an unchanged value; otherwise
store the new delay, stop the old auto-commit machinery (committing any
open transaction), and start it again when the new delay is non-zero. -/
def DB.setAutoCommit (s : DB) (ms : Nat) : DB :=
  if s.delay = ms then s
  else
    let s1 := { s with delay := ms }
    let s2 := s1.stopAutoCommit
    if ms ≠ 0 then s2.startAutoCommit else s2

/-- The armed bouncer fires: its `fn` is `() => this.#commit()`.  A
cancelled bouncer (`timer = none`) never fires. -/
def DB.timerFire (s : DB) : DB :=
  match s.timer with
  | none => s
  | some _ => s.dbCommit

/-- `transaction(fn)`: flatten when already inside a transaction;
otherwise begin, run the callback, commit on success, rollback and
re-raise on failure. -/
def DB.transaction (fn : DB → Except Nat Unit × DB) (s : DB) : Except Nat Unit × DB :=
  if s.active then fn s
  else
    let s1 := s.dbBegin
    match fn s1 with
    | (Except.ok _, s2) => (Except.ok (), s2.dbCommit)
    | (Except.error e, s2) => (Except.error e, s2.dbRollback)

/-- `asyncTransaction(ms, fn)`: flatten when already inside a
transaction; otherwise save the old interval, set it to `ms`, run the
callback; on success commit then restore the interval; on failure
rollback then restore the interval and re-raise. -/
def DB.asyncTransaction (ms : Nat) (fn : DB → Except Nat Unit × DB) (s : DB) :
    Except Nat Unit × DB :=
  if s.active then fn s
  else
    let old := s.delay
    let s1 := s.setAutoCommit ms
    match fn s1 with
    | (Except.ok _, s2) => (Except.ok (), (s2.dbCommit).setAutoCommit old)
    | (Except.error e, s2) => (Except.error e, (s2.dbRollback).setAutoCommit old)

/-- `notify(fn)` / `#addUpdateHook(type, fn)`: register a callback. -/
def DB.addUpdateHook (s : DB) (ph : Phase) (h : Hook) : DB :=
  match ph with
  | Phase.pre => { s with pre := addHook s.pre h }
  | Phase.post => { s with post := addHook s.post h }

/-- The disposer returned by a registration: remove that callback. -/
def DB.removeUpdateHook (s : DB) (ph : Phase) (h : Hook) : DB :=
  match ph with
  | Phase.pre => { s with pre := removeHook s.pre h }
  | Phase.post => { s with post := removeHook s.post h }

/-! ## Callback scripts

A synchronous callback is a script of writes (`run`), raw statements
(`exec`), nested `transaction` calls and an optional terminal throw; an
asynchronous callback additionally contains the points where the armed
commit timer fires during a suspension (the binding is synchronous, so
a firing can only fall between operations, never inside one).
-/

/-- Body of a synchronous `transaction` callback. -/
inductive SyncScript where
  | done : SyncScript
  | failS (e : Nat) : SyncScript
  | wr (w : Nat) (rest : SyncScript) : SyncScript
  | ex (w : Nat) (rest : SyncScript) : SyncScript
  | nest (inner rest : SyncScript) : SyncScript
deriving DecidableEq, Repr

/-- Run a synchronous script.  The `nest` case inlines
`DB.transaction (interpS inner)` (see `interpS_nest`). -/
def interpS : SyncScript → DB → Except Nat Unit × DB
  | SyncScript.done, s => (Except.ok (), s)
  | SyncScript.failS e, s => (Except.error e, s)
  | SyncScript.wr w r, s => interpS r (s.runW w)
  | SyncScript.ex w r, s => interpS r (s.execW w)
  | SyncScript.nest i r, s =>
    if s.active then
      match interpS i s with
      | (Except.ok _, s2) => interpS r s2
      | (Except.error e, s2) => (Except.error e, s2)
    else
      match interpS i s.dbBegin with
      | (Except.ok _, s2) => interpS r s2.dbCommit
      | (Except.error e, s2) => (Except.error e, s2.dbRollback)

/-- Body of an `asyncTransaction` callback: writes, raw statements and
timer firings at suspension points. -/
inductive AsyncScript where
  | done : AsyncScript
  | failS (e : Nat) : AsyncScript
  | wr (w : Nat) (rest : AsyncScript) : AsyncScript
  | tick (rest : AsyncScript) : AsyncScript
deriving DecidableEq, Repr

/-- Run an asynchronous script. -/
def interpA : AsyncScript → DB → Except Nat Unit × DB
  | AsyncScript.done, s => (Except.ok (), s)
  | AsyncScript.failS e, s => (Except.error e, s)
  | AsyncScript.wr w r, s => interpA r (s.runW w)
  | AsyncScript.tick r, s => interpA r s.timerFire

/-- Does a timer firing occur anywhere in the script? -/
def hasTick : AsyncScript → Bool
  | AsyncScript.done => false
  | AsyncScript.failS _ => false
  | AsyncScript.wr _ r => hasTick r
  | AsyncScript.tick _ => true

/-- The writes of the script that a timer firing flushes: exactly those
issued before the last tick. -/
def flushedWrites : AsyncScript → List Nat
  | AsyncScript.done => []
  | AsyncScript.failS _ => []
  | AsyncScript.wr w r => if hasTick r then w :: flushedWrites r else flushedWrites r
  | AsyncScript.tick r => flushedWrites r

/-- Connection-state invariant maintained by the public API: pending
writes only exist inside a transaction; the bouncer is armed iff the
interval is non-zero; the auto hook is registered iff the interval is
non-zero; the auto hook lives only on the pre list. -/
def Inv (s : DB) : Prop :=
  (s.active = false → s.pending = [])
  ∧ (s.timer.isSome = true ↔ s.delay ≠ 0)
  ∧ ((Hook.auto ∈ s.pre) ↔ s.delay ≠ 0)
  ∧ Hook.auto ∉ s.post

instance (s : DB) : Decidable (Inv s) := by
  unfold Inv
  infer_instance

/-! ## Helper lemmas about the json update-trigger objects -/

/-- The before object spelled out: every key column with its old value,
followed by the changed data columns with their old values. -/
theorem updBefore_eq (kcols dcols : List String) (o n : String → SVal) :
    updBefore kcols dcols o n =
      kcols.map (fun c => (c, o c)) ++
        (dcols.filter (fun c => svalIsNot (o c) (n c))).map (fun c => (c, o c)) := by
  unfold updBefore updChgs
  rw [List.filter_append, List.map_append]
  congr 1
  · induction kcols with
    | nil => rfl
    | cons c cs ih => simp [ih]
  · induction dcols with
    | nil => rfl
    | cons c cs ih =>
      by_cases h : svalIsNot (o c) (n c)
      · simp [h, ih]
      · simp [h, ih]

/-- The after object spelled out: exactly the changed columns (keys
included when they changed) with their new values. -/
theorem updAfter_eq (kcols dcols : List String) (o n : String → SVal) :
    updAfter kcols dcols o n =
      (kcols.filter (fun c => svalIsNot (o c) (n c))).map (fun c => (c, n c)) ++
        (dcols.filter (fun c => svalIsNot (o c) (n c))).map (fun c => (c, n c)) := by
  unfold updAfter updChgs
  rw [List.filter_append, List.map_append]
  congr 1
  · induction kcols with
    | nil => rfl
    | cons c cs ih =>
      by_cases h : svalIsNot (o c) (n c)
      · simp [h, ih]
      · simp [h, ih]
  · induction dcols with
    | nil => rfl
    | cons c cs ih =>
      by_cases h : svalIsNot (o c) (n c)
      · simp [h, ih]
      · simp [h, ih]

/-- Column names appearing in the before object come from the declared
key or data columns. -/
theorem mem_map_fst_updBefore {x : String} {kcols dcols : List String}
    {o n : String → SVal} (h : x ∈ (updBefore kcols dcols o n).map Prod.fst) :
    x ∈ kcols ∨ x ∈ dcols := by
  rw [updBefore_eq] at h
  simp only [List.map_append, List.mem_append, List.mem_map, List.map_map] at h
  rcases h with h | h
  · obtain ⟨c, hc, rfl⟩ := h
    exact Or.inl hc
  · obtain ⟨c, hc, rfl⟩ := h
    exact Or.inr (List.mem_of_mem_filter hc)

/-- Column names appearing in the after object come from the declared
key or data columns. -/
theorem mem_map_fst_updAfter {x : String} {kcols dcols : List String}
    {o n : String → SVal} (h : x ∈ (updAfter kcols dcols o n).map Prod.fst) :
    x ∈ kcols ∨ x ∈ dcols := by
  rw [updAfter_eq] at h
  simp only [List.map_append, List.mem_append, List.mem_map, List.map_map] at h
  rcases h with h | h
  · obtain ⟨c, hc, rfl⟩ := h
    exact Or.inl (List.mem_of_mem_filter hc)
  · obtain ⟨c, hc, rfl⟩ := h
    exact Or.inr (List.mem_of_mem_filter hc)

/-! ## Claim C1 -/

/-- C1: one firing of the generated json after-update trigger appends
exactly one change record; its before object holds precisely all key
columns (with old values) plus the data columns whose values differ
(with old values), its after object holds precisely the columns whose
values differ (with new values); and when no tracked column changed the
single record's before object holds exactly the key columns and its
after object is empty (so both objects contain only key columns). -/
theorem json_update_trigger_delta (name : String) (kcols dcols : List String)
    (o n : String → SVal) :
    (updRecords name kcols dcols o n).length = 1
    ∧ updBefore kcols dcols o n =
        kcols.map (fun c => (c, o c)) ++
          (dcols.filter (fun c => svalIsNot (o c) (n c))).map (fun c => (c, o c))
    ∧ updAfter kcols dcols o n =
        (kcols.filter (fun c => svalIsNot (o c) (n c))).map (fun c => (c, n c)) ++
          (dcols.filter (fun c => svalIsNot (o c) (n c))).map (fun c => (c, n c))
    ∧ ((∀ c ∈ kcols ++ dcols, o c = n c) →
        updBefore kcols dcols o n = kcols.map (fun c => (c, o c))
        ∧ updAfter kcols dcols o n = []) := by
  refine ⟨rfl, updBefore_eq kcols dcols o n, updAfter_eq kcols dcols o n, fun h => ?_⟩
  have hk : ∀ c ∈ kcols, svalIsNot (o c) (n c) = false := by
    intro c hc
    simp [svalIsNot, h c (List.mem_append.mpr (Or.inl hc))]
  have hd : ∀ c ∈ dcols, svalIsNot (o c) (n c) = false := by
    intro c hc
    simp [svalIsNot, h c (List.mem_append.mpr (Or.inr hc))]
  have hdnil : dcols.filter (fun c => svalIsNot (o c) (n c)) = [] := by
    rw [List.filter_eq_nil_iff]
    intro c hc
    simp [hd c hc]
  have hknil : kcols.filter (fun c => svalIsNot (o c) (n c)) = [] := by
    rw [List.filter_eq_nil_iff]
    intro c hc
    simp [hk c hc]
  constructor
  · rw [updBefore_eq, hdnil]
    simp
  · rw [updAfter_eq, hdnil, hknil]
    simp

/-- C1 witness: concrete instance of the no-change corollary. -/
theorem json_update_trigger_delta_witness :
    updBefore ["bar"] ["baz"] (fun _ => SVal.int 7) (fun _ => SVal.int 7) =
      [("bar", SVal.int 7)]
    ∧ updAfter ["bar"] ["baz"] (fun _ => SVal.int 7) (fun _ => SVal.int 7) = [] :=
  (json_update_trigger_delta "foo" ["bar"] ["baz"] (fun _ => SVal.int 7)
      (fun _ => SVal.int 7)).2.2.2 (fun _ _ => rfl)

/-! ## Claim C7 -/

/-- C7 counterexample: in sql capture mode the exclusion list is
ignored.  With table `foo2(bar pk, baz, ignore)` and
`exclude = ['ignore']`, the generated sql-mode triggers still reference
`new.ignore`, and the replay record stored for an update that changes
`ignore` from 1 to 2 contains `ignore=2` — the excluded column appears
in a generated change record, refuting the claim for sql mode. -/
theorem sql_mode_ignores_exclusion :
    strHas
        (trackChanges "foo2" ["bar"] ["baz", "ignore"]
          { dest := "changes", type := "sql", exclude := ["ignore"] })
        "new.ignore" = true
    ∧ strHas
        (sqlUpdReplay "foo2" ["bar"] ["bar", "baz", "ignore"]
          (fun c => if c = "bar" then SVal.int 12
                    else if c = "baz" then SVal.text "fizz" else SVal.int 1)
          (fun c => if c = "bar" then SVal.int 12
                    else if c = "baz" then SVal.text "fizz" else SVal.int 2))
        "ignore=2" = true := by
  constructor
  · decide
  · decide

/-- C7 (amended): the tracked data columns are the non-key columns in
declaration order minus the exclude list in json mode only — there an
excluded non-key column never appears in any generated record object —
while sql mode passes the data columns to the generator unfiltered, so
the exclude option has no effect on sql capture. -/
theorem exclusion_applies_to_json_mode_only :
    (∀ (name : String) (kcols dcols : List String) (opts : TrackOpts),
        opts.type = "json" →
        trackChanges name kcols dcols opts =
          jsonChanges name opts.dest kcols
            (dcols.filter (fun n => ¬ opts.exclude.contains n)))
    ∧ (∀ (name : String) (kcols dcols : List String) (opts : TrackOpts),
        opts.type ≠ "json" →
        trackChanges name kcols dcols opts = sqlChanges name opts.dest kcols dcols)
    ∧ (∀ (kcols dcols exclude : List String) (o n : String → SVal) (x : String),
        x ∈ exclude → x ∉ kcols →
        x ∉ (insObject kcols (dcols.filter (fun c => ¬ exclude.contains c)) n).map Prod.fst
        ∧ x ∉ (delObject kcols (dcols.filter (fun c => ¬ exclude.contains c)) o).map Prod.fst
        ∧ x ∉ (updBefore kcols (dcols.filter (fun c => ¬ exclude.contains c)) o n).map Prod.fst
        ∧ x ∉ (updAfter kcols (dcols.filter (fun c => ¬ exclude.contains c)) o n).map Prod.fst) := by
  refine ⟨?_, ?_, ?_⟩
  · intro name kcols dcols opts h
    simp [trackChanges, h]
  · intro name kcols dcols opts h
    simp [trackChanges, h]
  · intro kcols dcols exclude o n x hx hxk
    have hxd : x ∉ dcols.filter (fun c => ¬ exclude.contains c) := by
      simp [List.mem_filter, hx]
    refine ⟨?_, ?_, ?_, ?_⟩
    · intro hmem
      simp only [insObject, List.map_map, List.mem_map] at hmem
      obtain ⟨c, hc, hcx⟩ := hmem
      rcases List.mem_append.mp hc with h | h
      · exact hxk (hcx ▸ h)
      · exact hxd (hcx ▸ h)
    · intro hmem
      simp only [delObject, List.map_map, List.mem_map] at hmem
      obtain ⟨c, hc, hcx⟩ := hmem
      rcases List.mem_append.mp hc with h | h
      · exact hxk (hcx ▸ h)
      · exact hxd (hcx ▸ h)
    · intro hmem
      rcases mem_map_fst_updBefore hmem with h | h
      · exact hxk h
      · exact hxd h
    · intro hmem
      rcases mem_map_fst_updAfter hmem with h | h
      · exact hxk h
      · exact hxd h

/-- C7 witness: a concrete excluded column is absent from every json
record object. -/
theorem exclusion_applies_to_json_mode_only_witness :
    "ignore" ∉
        (insObject ["bar"] (["baz", "ignore"].filter
          (fun c => ¬ (["ignore"] : List String).contains c))
          (fun _ => SVal.int 1)).map Prod.fst
    ∧ "ignore" ∉
        (delObject ["bar"] (["baz", "ignore"].filter
          (fun c => ¬ (["ignore"] : List String).contains c))
          (fun _ => SVal.int 1)).map Prod.fst
    ∧ "ignore" ∉
        (updBefore ["bar"] (["baz", "ignore"].filter
          (fun c => ¬ (["ignore"] : List String).contains c))
          (fun _ => SVal.int 1) (fun _ => SVal.int 2)).map Prod.fst
    ∧ "ignore" ∉
        (updAfter ["bar"] (["baz", "ignore"].filter
          (fun c => ¬ (["ignore"] : List String).contains c))
          (fun _ => SVal.int 1) (fun _ => SVal.int 2)).map Prod.fst :=
  exclusion_applies_to_json_mode_only.2.2 ["bar"] ["baz", "ignore"] ["ignore"]
    (fun _ => SVal.int 1) (fun _ => SVal.int 2) "ignore" (by decide) (by decide)

/-! ## Claim C8 -/

/-- C8 counterexample: the options of `trackChanges` are exactly
`dest`, `type` and `exclude` — there is no schema parameter — and for a
concrete invocation with every option set, in both capture modes, the
emitted DDL hard-codes the temp schema (`create temp trigger ...`), so
the installation schema is not taken from the options. -/
theorem trigger_schema_not_an_option :
    strStarts
        (trackChanges "foo" ["bar"] ["baz"]
          { dest := "log", type := "sql", exclude := ["baz"] })
        "create temp trigger " = true
    ∧ strStarts
        (trackChanges "foo" ["bar"] ["baz"]
          { dest := "log", type := "json", exclude := [] })
        "create temp trigger " = true := by
  constructor
  · decide
  · decide

/-- C8 (amended): the generator always installs its triggers in the
temp schema: every statement it pushes, in either capture mode, and the
joined DDL for every option record, begins with
`create temp trigger ` — the installation scope is fixed, not a
caller-supplied option. -/
theorem trackChanges_always_temp_schema (name dest : String) (kcols dcols : List String) :
    (∀ s ∈ jsonTriggerStmts name dest kcols dcols,
        ∃ r, s = "create temp trigger " ++ r)
    ∧ (∀ s ∈ sqlTriggerStmts name dest kcols dcols,
        ∃ r, s = "create temp trigger " ++ r)
    ∧ (∀ opts : TrackOpts,
        ∃ r, trackChanges name kcols dcols opts = "create temp trigger " ++ r) := by
  refine ⟨?_, ?_, ?_⟩
  · intro s hs
    simp only [jsonTriggerStmts, List.mem_cons, List.not_mem_nil, or_false] at hs
    rcases hs with h | h | h
    · subst h
      exact ⟨_, by simp only [String.append_assoc]; rfl⟩
    · subst h
      exact ⟨_, by simp only [String.append_assoc]; rfl⟩
    · subst h
      exact ⟨_, by simp only [String.append_assoc]; rfl⟩
  · intro s hs
    simp only [sqlTriggerStmts, List.mem_cons, List.not_mem_nil, or_false] at hs
    rcases hs with h | h | h
    · subst h
      exact ⟨_, by simp only [String.append_assoc]; rfl⟩
    · subst h
      exact ⟨_, by simp only [String.append_assoc]; rfl⟩
    · subst h
      exact ⟨_, by simp only [String.append_assoc]; rfl⟩
  · intro opts
    by_cases h : opts.type = "json"
    · simp only [trackChanges, h, if_pos, jsonChanges, jsonTriggerStmts, String.join,
        List.foldl]
      exact ⟨_, by
        rw [show ∀ s : String, "" ++ s = s from fun s => by simp]
        simp only [String.append_assoc]
        rfl⟩
    · simp only [trackChanges, h, if_neg, if_false, sqlChanges, sqlTriggerStmts,
        String.join, List.foldl]
      exact ⟨_, by
        rw [show ∀ s : String, "" ++ s = s from fun s => by simp]
        simp only [String.append_assoc]
        rfl⟩

set_option maxRecDepth 10000 in
/-- C8 witness: the amended statement at a concrete statement and a
concrete option record. -/
theorem trackChanges_always_temp_schema_witness :
    (∃ r, (jsonTriggerStmts "foo" "changes" ["bar"] ["baz"]).headI =
      "create temp trigger " ++ r)
    ∧ (∃ r, trackChanges "foo" ["bar"] ["baz"] {} = "create temp trigger " ++ r) :=
  ⟨(trackChanges_always_temp_schema "foo" "changes" ["bar"] ["baz"]).1 _ (by decide),
    (trackChanges_always_temp_schema "foo" "changes" ["bar"] ["baz"]).2.2 {}⟩

/-! ## Claim C10 -/

/-- C10: a first argument containing a space is treated as literal SQL,
minified with `sqlmin` and passed through unchanged by both resolvers;
a space-free argument is treated as a name: reads expand to a select
with a WHERE clause built from the parameter keys, writes expand to an
insert over the introspected columns minus those named `unused` or `0`,
falling back to `insert into name values(null)` when no column remains;
resolved SQL is cached per name and key set (reads) and per name
(writes): an immediately repeated call returns the same SQL and leaves
the cache unchanged. -/
theorem statement_resolver_dispatch :
    (∀ (cache : List (String × String)) (s : String) (keys : List String),
        hasSpace s = true → getReadSQL cache s keys = (sqlmin s, cache))
    ∧ (∀ (cache : List (String × String)) (s : String) (tcols : List String),
        hasSpace s = true → getUpdateSQL cache s tcols = (sqlmin s, cache))
    ∧ (∀ (s : String) (keys : List String), hasSpace s = false →
        (getReadSQL [] s keys).1 =
          (if keys.isEmpty then "select * from " ++ s
           else "select * from " ++ s ++ " where " ++
             String.intercalate " and " (keys.map (fun col => col ++ "=$" ++ col))))
    ∧ (∀ (s : String) (tcols : List String), hasSpace s = false →
        tcols.filter (fun n => n ≠ "unused" && n ≠ "0") ≠ [] →
        (getUpdateSQL [] s tcols).1 =
          "insert into " ++ s ++ "(" ++
            String.intercalate "," (tcols.filter (fun n => n ≠ "unused" && n ≠ "0")) ++
            ")" ++ "values(" ++
            String.intercalate ","
              ((tcols.filter (fun n => n ≠ "unused" && n ≠ "0")).map
                (fun col => "$" ++ col)) ++ ")")
    ∧ (∀ (s : String) (tcols : List String), hasSpace s = false →
        tcols.filter (fun n => n ≠ "unused" && n ≠ "0") = [] →
        (getUpdateSQL [] s tcols).1 = "insert into " ++ s ++ " values(null)")
    ∧ (∀ (cache : List (String × String)) (s : String) (keys : List String),
        getReadSQL (getReadSQL cache s keys).2 s keys =
          ((getReadSQL cache s keys).1, (getReadSQL cache s keys).2))
    ∧ (∀ (cache : List (String × String)) (s : String) (tcols : List String),
        getUpdateSQL (getUpdateSQL cache s tcols).2 s tcols =
          ((getUpdateSQL cache s tcols).1, (getUpdateSQL cache s tcols).2)) := by
  refine ⟨?_, ?_, ?_, ?_, ?_, ?_, ?_⟩
  · intro cache s keys h
    simp [getReadSQL, h]
  · intro cache s tcols h
    simp [getUpdateSQL, h]
  · intro s keys h
    simp [getReadSQL, h, cacheLookup]
  · intro s tcols h hcols
    obtain ⟨a, as, hq⟩ := List.exists_cons_of_ne_nil hcols
    have hl : cacheLookup [] s = none := rfl
    simp only [getUpdateSQL, h, Bool.false_eq_true, if_false, hl, hq, List.isEmpty_cons,
      Bool.not_eq_true, not_false_iff, if_true]
  · intro s tcols h hcols
    have hl : cacheLookup [] s = none := rfl
    simp only [getUpdateSQL, h, Bool.false_eq_true, if_false, hl, hcols, List.isEmpty_nil,
      not_true, if_false]
  · intro cache s keys
    by_cases hs : hasSpace s
    · simp [getReadSQL, hs]
    · simp only [getReadSQL, hs, Bool.false_eq_true, if_false]
      cases hl : cacheLookup cache (String.intercalate "," (s :: keys)) with
      | some sql => simp [hl]
      | none => simp [hl, cacheLookup]
  · intro cache s tcols
    by_cases hs : hasSpace s
    · simp [getUpdateSQL, hs]
    · simp only [getUpdateSQL, hs, Bool.false_eq_true, if_false]
      cases hl : cacheLookup cache s with
      | some sql => simp [hl]
      | none => simp [hl, cacheLookup]

/-- C10 witness: the literal-SQL branch and the no-columns fallback at
concrete inputs. -/
theorem statement_resolver_dispatch_witness :
    getReadSQL [] "select 1" [] = (sqlmin "select 1", [])
    ∧ (getUpdateSQL [] "foobar" ["unused"]).1 = "insert into " ++ "foobar" ++ " values(null)" :=
  ⟨statement_resolver_dispatch.1 [] "select 1" [] (by decide),
    statement_resolver_dispatch.2.2.2.2.1 "foobar" ["unused"] (by decide) (by decide)⟩

/-! ## Helper lemmas about the coalescer state machine -/

/-- Effect of running a hook list: data fields are untouched, a
transaction is open afterwards iff one was open before or the auto hook
is in the list, and the appended log events are the user-hook calls,
the timer signal, and (only from an inactive state) a single BEGIN. -/
theorem fireHooks_spec (hooks : List Hook) (ph : Phase) (w : Nat) (s : DB) :
    (fireHooks hooks ph w s).committed = s.committed
    ∧ (fireHooks hooks ph w s).pending = s.pending
    ∧ (fireHooks hooks ph w s).delay = s.delay
    ∧ (fireHooks hooks ph w s).timer = s.timer
    ∧ (fireHooks hooks ph w s).pre = s.pre
    ∧ (fireHooks hooks ph w s).post = s.post
    ∧ ((fireHooks hooks ph w s).active = true ↔ (s.active = true ∨ Hook.auto ∈ hooks))
    ∧ ∃ evts, (fireHooks hooks ph w s).log = s.log ++ evts
        ∧ (∀ i, Hook.user i ∈ hooks → Event.call ph i w ∈ evts)
        ∧ (Hook.auto ∈ hooks → Event.timerSignal ∈ evts)
        ∧ (∀ e ∈ evts, txEvent e = true → e = Event.engBegin)
        ∧ (s.active = true → ∀ e ∈ evts, txEvent e = false) := by
  induction hooks generalizing s with
  | nil =>
    refine ⟨rfl, rfl, rfl, rfl, rfl, rfl, by simp [fireHooks], ⟨[], by simp [fireHooks], ?_, ?_, ?_, ?_⟩⟩
    · intro i hi
      exact absurd hi (List.not_mem_nil _)
    · intro hi
      exact absurd hi (List.not_mem_nil _)
    · intro e he
      exact absurd he (List.not_mem_nil _)
    · intro _ e he
      exact absurd he (List.not_mem_nil _)
  | cons h hs ih =>
    have step : fireHooks (h :: hs) ph w s = fireHooks hs ph w (s.fireHook ph w h) := rfl
    cases h with
    | user i =>
      have hfire : s.fireHook ph w (Hook.user i) =
          { s with log := s.log ++ [Event.call ph i w] } := rfl
      obtain ⟨hc, hp, hd, ht, hpre, hpost, ha, evts, hlog, hcall, hts, htx, hnotx⟩ :=
        ih ({ s with log := s.log ++ [Event.call ph i w] })
      rw [step, hfire]
      refine ⟨hc, hp, hd, ht, hpre, hpost, ?_, Event.call ph i w :: evts, ?_, ?_, ?_, ?_, ?_⟩
      · rw [ha]
        simp
      · rw [hlog]
        simp
      · intro j hj
        rcases List.mem_cons.mp hj with hj | hj
        · rw [show j = i from by injection hj]
          exact List.mem_cons_self _ _
        · exact List.mem_cons_of_mem _ (hcall j hj)
      · intro hauto
        rcases List.mem_cons.mp hauto with hc2 | hc2
        · exact absurd hc2 (by simp)
        · exact List.mem_cons_of_mem _ (hts hc2)
      · intro e he
        rcases List.mem_cons.mp he with he | he
        · intro habs
          rw [he] at habs
          exact absurd habs (by simp [txEvent])
        · exact htx e he
      · intro hact e he
        rcases List.mem_cons.mp he with he | he
        · rw [he]
          rfl
        · exact hnotx hact e he
    | auto =>
      by_cases hact : s.active
      · have hfire : s.fireHook ph w Hook.auto =
            { s with log := s.log ++ [Event.timerSignal] } := by
          simp [DB.fireHook, DB.dbBegin, hact]
        obtain ⟨hc, hp, hd, ht, hpre, hpost, ha, evts, hlog, hcall, hts, htx, hnotx⟩ :=
          ih ({ s with log := s.log ++ [Event.timerSignal] })
        rw [step, hfire]
        refine ⟨hc, hp, hd, ht, hpre, hpost, ?_, Event.timerSignal :: evts, ?_, ?_, ?_, ?_, ?_⟩
        · rw [ha]
          simp [hact]
        · rw [hlog]
          simp
        · intro j hj
          rcases List.mem_cons.mp hj with hj | hj
          · exact absurd hj (by simp)
          · exact List.mem_cons_of_mem _ (hcall j hj)
        · intro _
          exact List.mem_cons_self _ _
        · intro e he
          rcases List.mem_cons.mp he with he | he
          · intro habs
            rw [he] at habs
            exact absurd habs (by simp [txEvent])
          · exact htx e he
        · intro _ e he
          rcases List.mem_cons.mp he with he | he
          · rw [he]
            rfl
          · exact hnotx hact e he
      · have hfire : s.fireHook ph w Hook.auto =
            { s with log := s.log ++ [Event.engBegin, Event.timerSignal], active := true } := by
          simp [DB.fireHook, DB.dbBegin, hact]
        obtain ⟨hc, hp, hd, ht, hpre, hpost, ha, evts, hlog, hcall, hts, htx, hnotx⟩ :=
          ih ({ s with log := s.log ++ [Event.engBegin, Event.timerSignal], active := true })
        rw [step, hfire]
        refine ⟨hc, hp, hd, ht, hpre, hpost, ?_,
          Event.engBegin :: Event.timerSignal :: evts, ?_, ?_, ?_, ?_, ?_⟩
        · rw [ha]
          simp
        · rw [hlog]
          simp
        · intro j hj
          rcases List.mem_cons.mp hj with hj | hj
          · exact absurd hj (by simp)
          · exact List.mem_cons_of_mem _ (List.mem_cons_of_mem _ (hcall j hj))
        · intro _
          exact List.mem_cons_of_mem _ (List.mem_cons_self _ _)
        · intro e he
          rcases List.mem_cons.mp he with he | he
          · intro _
            exact he
          · rcases List.mem_cons.mp he with he | he
            · intro habs
              rw [he] at habs
              exact absurd habs (by simp [txEvent])
            · exact htx e he
        · intro habs
          rw [habs] at hact
          exact absurd rfl hact

/-- Effect of `run` when a transaction is active or the auto hook is
registered: the write joins the pending list inside an (possibly newly
opened) transaction; data fields and registrations are otherwise
untouched, and the appended events contain no COMMIT/ROLLBACK — and no
transaction statement at all when one was already active. -/
theorem runW_spec_tx (s : DB) (w : Nat) (ha : s.active = true ∨ Hook.auto ∈ s.pre) :
    (s.runW w).committed = s.committed
    ∧ (s.runW w).pending = s.pending ++ [w]
    ∧ (s.runW w).active = true
    ∧ (s.runW w).delay = s.delay
    ∧ (s.runW w).timer = s.timer
    ∧ (s.runW w).pre = s.pre
    ∧ (s.runW w).post = s.post
    ∧ ∃ evts, (s.runW w).log = s.log ++ evts
        ∧ (∀ e ∈ evts, txEvent e = true → e = Event.engBegin)
        ∧ (s.active = true → ∀ e ∈ evts, txEvent e = false) := by
  obtain ⟨h1c, h1p, h1d, h1t, h1pre, h1post, h1a, evts1, h1log, _, _, h1tx, h1notx⟩ :=
    fireHooks_spec s.pre Phase.pre w s
  have hs1a : (fireHooks s.pre Phase.pre w s).active = true := h1a.mpr ha
  have hrw : s.runW w =
      fireHooks ((fireHooks s.pre Phase.pre w s).dispatchW w).post Phase.post w
        ((fireHooks s.pre Phase.pre w s).dispatchW w) := by
    simp [DB.runW, DB.firePhase]
  have hd2 : (fireHooks s.pre Phase.pre w s).dispatchW w =
      { fireHooks s.pre Phase.pre w s with
          pending := (fireHooks s.pre Phase.pre w s).pending ++ [w],
          log := (fireHooks s.pre Phase.pre w s).log ++ [Event.dispatch w] } := by
    simp [DB.dispatchW, hs1a]
  obtain ⟨h3c, h3p, h3d, h3t, h3pre, h3post, h3a, evts3, h3log, _, _, h3tx, h3notx⟩ :=
    fireHooks_spec ((fireHooks s.pre Phase.pre w s).dispatchW w).post Phase.post w
      ((fireHooks s.pre Phase.pre w s).dispatchW w)
  have hx2a : ((fireHooks s.pre Phase.pre w s).dispatchW w).active = true := by
    rw [hd2]
    exact hs1a
  rw [hrw]
  refine ⟨?_, ?_, ?_, ?_, ?_, ?_, ?_, evts1 ++ [Event.dispatch w] ++ evts3, ?_, ?_, ?_⟩
  · rw [h3c, hd2]
    exact h1c
  · rw [h3p, hd2]
    show (fireHooks s.pre Phase.pre w s).pending ++ [w] = s.pending ++ [w]
    rw [h1p]
  · exact h3a.mpr (Or.inl hx2a)
  · rw [h3d, hd2]
    exact h1d
  · rw [h3t, hd2]
    exact h1t
  · rw [h3pre, hd2]
    exact h1pre
  · rw [h3post, hd2]
    exact h1post
  · rw [h3log, hd2]
    show ((fireHooks s.pre Phase.pre w s).log ++ [Event.dispatch w]) ++ evts3 =
      s.log ++ (evts1 ++ [Event.dispatch w] ++ evts3)
    rw [h1log]
    simp [List.append_assoc]
  · intro e he
    simp only [List.append_assoc, List.mem_append, List.mem_singleton] at he
    rcases he with he | he | he
    · exact h1tx e he
    · intro habs
      rw [he] at habs
      exact absurd habs (by simp [txEvent])
    · exact h3tx e he
  · intro hact e he
    simp only [List.append_assoc, List.mem_append, List.mem_singleton] at he
    rcases he with he | he | he
    · exact h1notx hact e he
    · rw [he]
      rfl
    · exact h3notx hx2a e he

/-- `#begin()` from an inactive state. -/
theorem dbBegin_inactive (s : DB) (h : s.active = false) :
    s.dbBegin = { s with log := s.log ++ [Event.engBegin], active := true } := by
  simp [DB.dbBegin, h]

/-- A list of non-transaction events contains no BEGIN, COMMIT or
ROLLBACK. -/
theorem count_tx_zero {evts : List Event} (h : ∀ e ∈ evts, txEvent e = false) :
    evts.count Event.engBegin = 0
    ∧ evts.count Event.engCommit = 0
    ∧ evts.count Event.engRollback = 0 := by
  refine ⟨List.count_eq_zero.mpr ?_, List.count_eq_zero.mpr ?_, List.count_eq_zero.mpr ?_⟩
  · intro hmem
    have := h _ hmem
    simp [txEvent] at this
  · intro hmem
    have := h _ hmem
    simp [txEvent] at this
  · intro hmem
    have := h _ hmem
    simp [txEvent] at this

/-- Running a synchronous script inside an active transaction keeps the
transaction active, leaves the durable rows and the coalescer
configuration untouched, and appends no engine-level transaction
statement to the log. -/
theorem interpS_active (sc : SyncScript) : ∀ s : DB, s.active = true →
    (interpS sc s).2.committed = s.committed
    ∧ (interpS sc s).2.active = true
    ∧ (interpS sc s).2.delay = s.delay
    ∧ (interpS sc s).2.timer = s.timer
    ∧ (interpS sc s).2.pre = s.pre
    ∧ (interpS sc s).2.post = s.post
    ∧ ∃ evts, (interpS sc s).2.log = s.log ++ evts ∧ ∀ e ∈ evts, txEvent e = false := by
  induction sc with
  | done =>
    intro s h
    exact ⟨rfl, h, rfl, rfl, rfl, rfl, [], by simp [interpS], by simp⟩
  | failS e =>
    intro s h
    exact ⟨rfl, h, rfl, rfl, rfl, rfl, [], by simp [interpS], by simp⟩
  | wr w r ih =>
    intro s h
    obtain ⟨rc, rp, ra, rd, rt, rpre, rpost, evts1, rlog, _, rnotx⟩ :=
      runW_spec_tx s w (Or.inl h)
    obtain ⟨ic, ia, id_, it, ipre, ipost, evts2, ilog, inotx⟩ := ih (s.runW w) ra
    have hstep : interpS (SyncScript.wr w r) s = interpS r (s.runW w) := rfl
    rw [hstep]
    refine ⟨by rw [ic, rc], ia, by rw [id_, rd], by rw [it, rt], by rw [ipre, rpre],
      by rw [ipost, rpost], evts1 ++ evts2, ?_, ?_⟩
    · rw [ilog, rlog, List.append_assoc]
    · intro e he
      rcases List.mem_append.mp he with he | he
      · exact rnotx h e he
      · exact inotx e he
  | ex w r ih =>
    intro s h
    have hex : s.execW w =
        { s with pending := s.pending ++ [w], log := s.log ++ [Event.dispatch w] } := by
      simp [DB.execW, DB.dispatchW, h]
    obtain ⟨ic, ia, id_, it, ipre, ipost, evts2, ilog, inotx⟩ :=
      ih (s.execW w) (by rw [hex]; exact h)
    have hstep : interpS (SyncScript.ex w r) s = interpS r (s.execW w) := rfl
    rw [hstep]
    refine ⟨by rw [ic, hex], ia, by rw [id_, hex], by rw [it, hex], by rw [ipre, hex],
      by rw [ipost, hex], Event.dispatch w :: evts2, ?_, ?_⟩
    · rw [ilog, hex]
      simp
    · intro e he
      rcases List.mem_cons.mp he with he | he
      · rw [he]
        rfl
      · exact inotx e he
  | nest i r ihi ihr =>
    intro s h
    have hstep : interpS (SyncScript.nest i r) s =
        (match interpS i s with
          | (Except.ok _, s2) => interpS r s2
          | (Except.error e, s2) => (Except.error e, s2)) := by
      simp [interpS, h]
    obtain ⟨ic, ia, id_, it, ipre, ipost, evts1, ilog, inotx⟩ := ihi s h
    rw [hstep]
    cases hit : interpS i s with
    | mk res s2 =>
      rw [hit] at ic ia id_ it ipre ipost ilog
      cases res with
      | ok u =>
        obtain ⟨jc, ja, jd, jt, jpre, jpost, evts2, jlog, jnotx⟩ := ihr s2 ia
        refine ⟨by rw [jc, ic], ja, by rw [jd, id_], by rw [jt, it], by rw [jpre, ipre],
          by rw [jpost, ipost], evts1 ++ evts2, ?_, ?_⟩
        · rw [jlog, ilog, List.append_assoc]
        · intro e he
          rcases List.mem_append.mp he with he | he
          · exact inotx e he
          · exact jnotx e he
      | error err =>
        exact ⟨ic, ia, id_, it, ipre, ipost, evts1, ilog, inotx⟩

/-! ## Claim C3 -/

/-- C3: a `transaction` or `asyncTransaction` call made while a
physical transaction is active merely invokes its callback and returns
the callback's result; during a nested script the transaction stays
active (`_inTransaction` reads true) and no engine-level transaction
statement is issued; and an outermost `transaction` call around a
succeeding script issues exactly one BEGIN and one COMMIT and no
ROLLBACK. -/
theorem nested_transactions_flatten :
    (∀ (fn : DB → Except Nat Unit × DB) (s : DB), s.active = true →
        DB.transaction fn s = fn s)
    ∧ (∀ (ms : Nat) (fn : DB → Except Nat Unit × DB) (s : DB), s.active = true →
        DB.asyncTransaction ms fn s = fn s)
    ∧ (∀ (sc : SyncScript) (s : DB), s.active = true →
        (interpS sc s).2.active = true
        ∧ ((interpS sc s).2.log.filter (fun e => txEvent e)).length =
            (s.log.filter (fun e => txEvent e)).length)
    ∧ (∀ (sc : SyncScript) (s : DB), s.active = false →
        (interpS sc s.dbBegin).1 = Except.ok () →
        (DB.transaction (interpS sc) s).2.log.count Event.engBegin =
          s.log.count Event.engBegin + 1
        ∧ (DB.transaction (interpS sc) s).2.log.count Event.engCommit =
          s.log.count Event.engCommit + 1
        ∧ (DB.transaction (interpS sc) s).2.log.count Event.engRollback =
          s.log.count Event.engRollback) := by
  refine ⟨?_, ?_, ?_, ?_⟩
  · intro fn s h
    simp [DB.transaction, h]
  · intro ms fn s h
    simp [DB.asyncTransaction, h]
  · intro sc s h
    obtain ⟨_, ia, _, _, _, _, evts, ilog, inotx⟩ := interpS_active sc s h
    refine ⟨ia, ?_⟩
    rw [ilog, List.filter_append]
    have : evts.filter (fun e => txEvent e) = [] := by
      rw [List.filter_eq_nil_iff]
      intro e he
      simp [inotx e he]
    rw [this, List.append_nil]
  · intro sc s h hok
    have hbeg : s.dbBegin = { s with log := s.log ++ [Event.engBegin], active := true} :=
      dbBegin_inactive s h
    obtain ⟨_, ia, _, _, _, _, evts, ilog, inotx⟩ :=
      interpS_active sc s.dbBegin (by rw [hbeg])
    have heq : interpS sc s.dbBegin = (Except.ok (), (interpS sc s.dbBegin).2) := by
      rw [← hok]
    have htr : DB.transaction (interpS sc) s =
        (Except.ok (), (interpS sc s.dbBegin).2.dbCommit) := by
      simp only [DB.transaction, h, Bool.false_eq_true, if_false]
      rw [heq]
    have hcm : (interpS sc s.dbBegin).2.dbCommit =
        { (interpS sc s.dbBegin).2 with
            log := (interpS sc s.dbBegin).2.log ++ [Event.engCommit],
            committed := (interpS sc s.dbBegin).2.committed ++ (interpS sc s.dbBegin).2.pending,
            pending := [], active := false } := by
      simp [DB.dbCommit, ia]
    obtain ⟨hb0, hc0, hr0⟩ := count_tx_zero inotx
    rw [htr]
    show ((interpS sc s.dbBegin).2.dbCommit).log.count Event.engBegin =
        s.log.count Event.engBegin + 1
      ∧ ((interpS sc s.dbBegin).2.dbCommit).log.count Event.engCommit =
        s.log.count Event.engCommit + 1
      ∧ ((interpS sc s.dbBegin).2.dbCommit).log.count Event.engRollback =
        s.log.count Event.engRollback
    rw [hcm]
    show ((interpS sc s.dbBegin).2.log ++ [Event.engCommit]).count Event.engBegin =
        s.log.count Event.engBegin + 1
      ∧ ((interpS sc s.dbBegin).2.log ++ [Event.engCommit]).count Event.engCommit =
        s.log.count Event.engCommit + 1
      ∧ ((interpS sc s.dbBegin).2.log ++ [Event.engCommit]).count Event.engRollback =
        s.log.count Event.engRollback
    rw [ilog, hbeg]
    show (((s.log ++ [Event.engBegin]) ++ evts) ++ [Event.engCommit]).count Event.engBegin =
        s.log.count Event.engBegin + 1
      ∧ (((s.log ++ [Event.engBegin]) ++ evts) ++ [Event.engCommit]).count Event.engCommit =
        s.log.count Event.engCommit + 1
      ∧ (((s.log ++ [Event.engBegin]) ++ evts) ++ [Event.engCommit]).count Event.engRollback =
        s.log.count Event.engRollback
    refine ⟨?_, ?_, ?_⟩
    · simp [List.count_append, hb0]
    · simp [List.count_append, hc0]
    · simp [List.count_append, hr0]

/-- C3 witness: flattening and the one-BEGIN-one-COMMIT count at
concrete inputs. -/
theorem nested_transactions_flatten_witness :
    DB.transaction (fun s => (Except.ok (), s)) initDB.dbBegin =
      (Except.ok (), initDB.dbBegin)
    ∧ (DB.transaction (interpS (SyncScript.wr 5 SyncScript.done)) initDB).2.log.count
        Event.engBegin = initDB.log.count Event.engBegin + 1 :=
  ⟨nested_transactions_flatten.1 (fun s => (Except.ok (), s)) initDB.dbBegin (by decide),
    (nested_transactions_flatten.2.2.2 (SyncScript.wr 5 SyncScript.done) initDB
      (by decide) rfl).1⟩

/-! ## Claim C4 -/

/-- C4: for an outermost `transaction` call (no transaction active),
a callback that raises leaves the durable rows exactly as before the
call — every row written during the call is rolled back — re-raises the
same failure, and leaves `_inTransaction` false; a callback that
returns normally also leaves `_inTransaction` false. -/
theorem sync_transaction_atomicity (sc : SyncScript) (s : DB) (h : s.active = false) :
    (∀ e : Nat, (interpS sc s.dbBegin).1 = Except.error e →
        (DB.transaction (interpS sc) s).1 = Except.error e
        ∧ (DB.transaction (interpS sc) s).2.committed = s.committed
        ∧ (DB.transaction (interpS sc) s).2.pending = []
        ∧ (DB.transaction (interpS sc) s).2.active = false)
    ∧ ((interpS sc s.dbBegin).1 = Except.ok () →
        (DB.transaction (interpS sc) s).2.active = false) := by
  have hbeg : s.dbBegin = { s with log := s.log ++ [Event.engBegin], active := true } :=
    dbBegin_inactive s h
  obtain ⟨ic, ia, _, _, _, _, _, _, _⟩ := interpS_active sc s.dbBegin (by rw [hbeg])
  constructor
  · intro e hfail
    have heq : interpS sc s.dbBegin = (Except.error e, (interpS sc s.dbBegin).2) := by
      rw [← hfail]
    have htr : DB.transaction (interpS sc) s =
        (Except.error e, (interpS sc s.dbBegin).2.dbRollback) := by
      simp only [DB.transaction, h, Bool.false_eq_true, if_false]
      rw [heq]
    have hrb : (interpS sc s.dbBegin).2.dbRollback =
        { (interpS sc s.dbBegin).2 with
            log := (interpS sc s.dbBegin).2.log ++ [Event.engRollback],
            pending := [], active := false } := by
      simp [DB.dbRollback, ia]
    rw [htr]
    refine ⟨rfl, ?_, ?_, ?_⟩
    · rw [hrb]
      show (interpS sc s.dbBegin).2.committed = s.committed
      rw [ic, hbeg]
    · rw [hrb]
    · rw [hrb]
  · intro hok
    have heq : interpS sc s.dbBegin = (Except.ok (), (interpS sc s.dbBegin).2) := by
      rw [← hok]
    have htr : DB.transaction (interpS sc) s =
        (Except.ok (), (interpS sc s.dbBegin).2.dbCommit) := by
      simp only [DB.transaction, h, Bool.false_eq_true, if_false]
      rw [heq]
    rw [htr]
    show ((interpS sc s.dbBegin).2.dbCommit).active = false
    simp [DB.dbCommit, ia]

/-- C4 witness: a failing two-write script rolls back fully at a
concrete input. -/
theorem sync_transaction_atomicity_witness :
    (DB.transaction
        (interpS (SyncScript.wr 1 (SyncScript.wr 2 (SyncScript.failS 9)))) initDB).1 =
      Except.error 9
    ∧ (DB.transaction
        (interpS (SyncScript.wr 1 (SyncScript.wr 2 (SyncScript.failS 9)))) initDB).2.committed =
      initDB.committed
    ∧ (DB.transaction
        (interpS (SyncScript.wr 1 (SyncScript.wr 2 (SyncScript.failS 9)))) initDB).2.pending = []
    ∧ (DB.transaction
        (interpS (SyncScript.wr 1 (SyncScript.wr 2 (SyncScript.failS 9)))) initDB).2.active =
      false :=
  (sync_transaction_atomicity (SyncScript.wr 1 (SyncScript.wr 2 (SyncScript.failS 9)))
      initDB (by decide)).1 9 rfl

/-! ## Helper lemmas for the asynchronous coalescer -/

/-- A script without timer firings flushes nothing. -/
theorem flushed_eq_nil_of_no_tick (a : AsyncScript) (h : hasTick a = false) :
    flushedWrites a = [] := by
  induction a with
  | done => rfl
  | failS e => rfl
  | wr w r ih =>
    have hr : hasTick r = false := h
    simp [flushedWrites, hr, ih hr]
  | tick r ih =>
    simp [hasTick] at h

/-- Running an asynchronous script on a state with an armed timer and
the auto hook registered: the durable rows grow by exactly the pending
writes plus the script writes issued before the last timer firing (and
by nothing when no firing occurs); the coalescer configuration is
untouched; pending writes only exist inside a transaction. -/
theorem interpA_spec (a : AsyncScript) : ∀ s : DB,
    s.timer.isSome = true → Hook.auto ∈ s.pre → (s.active = false → s.pending = []) →
    (interpA a s).2.committed =
      s.committed ++ (if hasTick a then s.pending ++ flushedWrites a else [])
    ∧ (interpA a s).2.delay = s.delay
    ∧ (interpA a s).2.timer = s.timer
    ∧ (interpA a s).2.pre = s.pre
    ∧ (interpA a s).2.post = s.post
    ∧ ((interpA a s).2.active = false → (interpA a s).2.pending = []) := by
  induction a with
  | done =>
    intro s ht hauto hpend
    exact ⟨by simp [interpA, hasTick], rfl, rfl, rfl, rfl, hpend⟩
  | failS e =>
    intro s ht hauto hpend
    exact ⟨by simp [interpA, hasTick], rfl, rfl, rfl, rfl, hpend⟩
  | wr w r ih =>
    intro s ht hauto hpend
    obtain ⟨rc, rp, ra, rd, rt, rpre, rpost, _, _, _⟩ := runW_spec_tx s w (Or.inr hauto)
    obtain ⟨ic, id_, it, ipre, ipost, ipend⟩ :=
      ih (s.runW w) (by rw [rt]; exact ht) (by rw [rpre]; exact hauto)
        (by rw [ra]; intro hx; exact absurd hx (by simp))
    have hstep : interpA (AsyncScript.wr w r) s = interpA r (s.runW w) := rfl
    rw [hstep]
    refine ⟨?_, by rw [id_, rd], by rw [it, rt], by rw [ipre, rpre], by rw [ipost, rpost], ipend⟩
    rw [ic, rc, rp]
    by_cases htk : hasTick r
    · have h1 : hasTick (AsyncScript.wr w r) = true := htk
      have h2 : flushedWrites (AsyncScript.wr w r) = w :: flushedWrites r := by
        simp [flushedWrites, htk]
      rw [h1, h2, htk]
      simp
    · have h1 : hasTick (AsyncScript.wr w r) = false := by
        simp [hasTick, htk]
      rw [h1]
      simp [htk]
  | tick r ih =>
    intro s ht hauto hpend
    obtain ⟨p, hp⟩ := Option.isSome_iff_exists.mp ht
    have hfire : s.timerFire = s.dbCommit := by
      simp [DB.timerFire, hp]
    have hcm : s.dbCommit.committed = s.committed ++ s.pending
        ∧ s.dbCommit.pending = [] ∧ s.dbCommit.active = false
        ∧ s.dbCommit.delay = s.delay ∧ s.dbCommit.timer = s.timer
        ∧ s.dbCommit.pre = s.pre ∧ s.dbCommit.post = s.post := by
      by_cases hact : s.active
      · simp [DB.dbCommit, hact]
      · have hpe : s.pending = [] := hpend (by simpa using hact)
        simp [DB.dbCommit, hact, hpe]
    obtain ⟨cc, cp, ca, cd, ct, cpre, cpost⟩ := hcm
    obtain ⟨ic, id_, it, ipre, ipost, ipend⟩ :=
      ih s.timerFire (by rw [hfire, ct]; exact ht) (by rw [hfire, cpre]; exact hauto)
        (by rw [hfire, cp]; intro _; rfl)
    have hstep : interpA (AsyncScript.tick r) s = interpA r s.timerFire := rfl
    rw [hstep]
    refine ⟨?_, by rw [id_, hfire, cd], by rw [it, hfire, ct], by rw [ipre, hfire, cpre],
      by rw [ipost, hfire, cpost], ipend⟩
    rw [ic, hfire, cc, cp]
    have h1 : hasTick (AsyncScript.tick r) = true := rfl
    have h2 : flushedWrites (AsyncScript.tick r) = flushedWrites r := rfl
    rw [h1, h2]
    by_cases htk : hasTick r
    · rw [htk]
      simp
    · have htk2 : hasTick r = false := by simpa using htk
      rw [htk2, flushed_eq_nil_of_no_tick r htk2]
      simp

/-- `autoCommit = ms` with `ms` non-zero, from an idle well-formed
state: arms the bouncer at period `ms`, registers the auto pre hook,
and touches neither the durable rows nor the (empty) pending list. -/
theorem setAutoCommit_arm (s : DB) (ms : Nat) (hms : ms ≠ 0) (hInv : Inv s)
    (hact : s.active = false) :
    (s.setAutoCommit ms).timer.isSome = true
    ∧ Hook.auto ∈ (s.setAutoCommit ms).pre
    ∧ (s.setAutoCommit ms).active = false
    ∧ (s.setAutoCommit ms).pending = []
    ∧ (s.setAutoCommit ms).committed = s.committed
    ∧ (s.setAutoCommit ms).delay = ms := by
  obtain ⟨hpend, htimer, hhook, _⟩ := hInv
  by_cases hd : s.delay = ms
  · have hstep : s.setAutoCommit ms = s := by
      simp [DB.setAutoCommit, hd]
    rw [hstep]
    exact ⟨htimer.mpr (hd ▸ hms), hhook.mpr (hd ▸ hms), hact, hpend hact, rfl, hd⟩
  · have hcm : ({ s with delay := ms } : DB).dbCommit = { s with delay := ms } := by
      simp [DB.dbCommit, hact]
    have hstep : s.setAutoCommit ms =
        { s with delay := ms, timer := some ms,
                 pre := addHook (removeHook s.pre Hook.auto) Hook.auto } := by
      simp only [DB.setAutoCommit, hd, if_false, DB.stopAutoCommit, hcm, DB.startAutoCommit,
        hms, if_neg, ite_false, if_true]
      simp [hms]
    rw [hstep]
    refine ⟨rfl, ?_, hact, hpend hact, rfl, rfl⟩
    show Hook.auto ∈ addHook (removeHook s.pre Hook.auto) Hook.auto
    simp [addHook]

/-- Restoring the saved interval after COMMIT/ROLLBACK: from an idle
state with no pending writes, `autoCommit = d` sets the delay to `d`
and changes neither the durable rows nor activity. -/
theorem setAutoCommit_restore (t : DB) (d : Nat) (hact : t.active = false)
    (hp : t.pending = []) :
    (t.setAutoCommit d).delay = d
    ∧ (t.setAutoCommit d).committed = t.committed
    ∧ (t.setAutoCommit d).active = false
    ∧ (t.setAutoCommit d).pending = [] := by
  by_cases hd : t.delay = d
  · have hstep : t.setAutoCommit d = t := by
      simp [DB.setAutoCommit, hd]
    rw [hstep]
    exact ⟨hd, rfl, hact, hp⟩
  · have hcm : ({ t with delay := d } : DB).dbCommit = { t with delay := d } := by
      simp [DB.dbCommit, hact]
    by_cases hz : d = 0
    · subst hz
      have hstep : t.setAutoCommit 0 =
          { t with delay := 0, timer := none, pre := removeHook t.pre Hook.auto } := by
        simp [DB.setAutoCommit, hd, DB.stopAutoCommit, hcm]
      rw [hstep]
      exact ⟨rfl, rfl, hact, hp⟩
    · have hstep : t.setAutoCommit d =
          { t with delay := d, timer := some d,
                   pre := addHook (removeHook t.pre Hook.auto) Hook.auto } := by
        simp only [DB.setAutoCommit, hd, if_false, DB.stopAutoCommit, hcm,
          DB.startAutoCommit, hz, if_neg, ite_false, if_true]
        simp [hz]
      rw [hstep]
      exact ⟨rfl, rfl, hact, hp⟩

/-! ## Claim C2 -/

/-- C2 counterexample: `asyncTransaction(0, fn)` is a legal call, but
with interval 0 the setter is a no-op, no auto hook is registered and
no transaction is ever opened, so each write is auto-committed by the
engine as it executes.  When the callback then raises, `#rollback` is a
no-op and the write survives — yet no timer-driven commit ever happened,
so the claim requires every write to be rolled back. -/
theorem async_zero_interval_no_rollback :
    (DB.asyncTransaction 0 (interpA (AsyncScript.wr 1 (AsyncScript.failS 7))) initDB).1 =
      Except.error 7
    ∧ (DB.asyncTransaction 0 (interpA (AsyncScript.wr 1 (AsyncScript.failS 7)))
        initDB).2.committed = [1]
    ∧ flushedWrites (AsyncScript.wr 1 (AsyncScript.failS 7)) = [] := by
  refine ⟨rfl, rfl, rfl⟩

/-- C2 (amended): for a non-zero coalescing interval, if the callback
of an outermost `asyncTransaction` raises then exactly the writes
issued before the last timer firing (those flushed by timer-driven
commits) are durable afterwards — writes after the last timer-driven
commit are rolled back, writes committed by prior firings remain
visible — the previous interval is restored, the same failure is
re-raised, and no transaction remains open.  (With interval 0 no
transaction is opened and nothing is rolled back; see the
counterexample.) -/
theorem async_transaction_bounded_loss (ms : Nat) (a : AsyncScript) (s : DB) (e : Nat)
    (hms : ms ≠ 0) (hInv : Inv s) (hact : s.active = false)
    (hfail : (interpA a (s.setAutoCommit ms)).1 = Except.error e) :
    (DB.asyncTransaction ms (interpA a) s).1 = Except.error e
    ∧ (DB.asyncTransaction ms (interpA a) s).2.committed = s.committed ++ flushedWrites a
    ∧ (DB.asyncTransaction ms (interpA a) s).2.delay = s.delay
    ∧ (DB.asyncTransaction ms (interpA a) s).2.active = false
    ∧ (DB.asyncTransaction ms (interpA a) s).2.pending = [] := by
  obtain ⟨at_, ah, aa, ap, ac, ad⟩ := setAutoCommit_arm s ms hms hInv hact
  obtain ⟨ic, id_, it, ipre, ipost, ipend⟩ :=
    interpA_spec a (s.setAutoCommit ms) at_ ah (fun _ => ap)
  have htc : (interpA a (s.setAutoCommit ms)).2.committed = s.committed ++ flushedWrites a := by
    rw [ic, ac, ap]
    by_cases htk : hasTick a
    · rw [htk]
      simp
    · have htk2 : hasTick a = false := by simpa using htk
      rw [htk2, flushed_eq_nil_of_no_tick a htk2]
      simp
  have hrb : (interpA a (s.setAutoCommit ms)).2.dbRollback.committed =
        (interpA a (s.setAutoCommit ms)).2.committed
      ∧ (interpA a (s.setAutoCommit ms)).2.dbRollback.active = false
      ∧ (interpA a (s.setAutoCommit ms)).2.dbRollback.pending = [] := by
    by_cases hta : (interpA a (s.setAutoCommit ms)).2.active
    · simp [DB.dbRollback, hta]
    · have hta2 : (interpA a (s.setAutoCommit ms)).2.active = false := by simpa using hta
      have := ipend hta2
      simp [DB.dbRollback, hta2, this]
  obtain ⟨sd, sc_, sa, sp⟩ :=
    setAutoCommit_restore (interpA a (s.setAutoCommit ms)).2.dbRollback s.delay
      hrb.2.1 hrb.2.2
  have heq : interpA a (s.setAutoCommit ms) =
      (Except.error e, (interpA a (s.setAutoCommit ms)).2) := by
    rw [← hfail]
  have htr : DB.asyncTransaction ms (interpA a) s =
      (Except.error e,
        ((interpA a (s.setAutoCommit ms)).2.dbRollback).setAutoCommit s.delay) := by
    simp only [DB.asyncTransaction, hact, Bool.false_eq_true, if_false]
    rw [heq]
  rw [htr]
  exact ⟨rfl, by rw [sc_, hrb.1, htc], sd, sa, sp⟩

/-- C2 witness: one write flushed by a timer firing survives the
failure, the write after the firing is rolled back, and the interval is
restored. -/
theorem async_transaction_bounded_loss_witness :
    (DB.asyncTransaction 10
        (interpA (AsyncScript.wr 1 (AsyncScript.tick (AsyncScript.wr 2 (AsyncScript.failS 7)))))
        initDB).1 = Except.error 7
    ∧ (DB.asyncTransaction 10
        (interpA (AsyncScript.wr 1 (AsyncScript.tick (AsyncScript.wr 2 (AsyncScript.failS 7)))))
        initDB).2.committed =
      initDB.committed ++
        flushedWrites (AsyncScript.wr 1 (AsyncScript.tick (AsyncScript.wr 2 (AsyncScript.failS 7))))
    ∧ (DB.asyncTransaction 10
        (interpA (AsyncScript.wr 1 (AsyncScript.tick (AsyncScript.wr 2 (AsyncScript.failS 7)))))
        initDB).2.delay = initDB.delay
    ∧ (DB.asyncTransaction 10
        (interpA (AsyncScript.wr 1 (AsyncScript.tick (AsyncScript.wr 2 (AsyncScript.failS 7)))))
        initDB).2.active = false
    ∧ (DB.asyncTransaction 10
        (interpA (AsyncScript.wr 1 (AsyncScript.tick (AsyncScript.wr 2 (AsyncScript.failS 7)))))
        initDB).2.pending = [] :=
  async_transaction_bounded_loss 10
    (AsyncScript.wr 1 (AsyncScript.tick (AsyncScript.wr 2 (AsyncScript.failS 7))))
    initDB 7 (by decide) (by decide) (by decide) rfl

/-! ## Claim C5 -/

/-- C5 counterexample: the setter early-returns when the value is
unchanged.  In a reachable state — `#begin` has run (as in an outermost
`transaction` callback) and a write is pending while `autoCommit` is
already 0 — the call `autoCommit = 0` changes nothing: the open
physical transaction is not committed, refuting "setting it to zero ...
forces an immediate commit of any open physical transaction" for every
such call. -/
theorem autoCommit_zero_noop_when_already_zero :
    (initDB.dbBegin.execW 5).active = true
    ∧ (initDB.dbBegin.execW 5).delay = 0
    ∧ ((initDB.dbBegin.execW 5).setAutoCommit 0) = initDB.dbBegin.execW 5
    ∧ ((initDB.dbBegin.execW 5).setAutoCommit 0).active = true
    ∧ ((initDB.dbBegin.execW 5).setAutoCommit 0).committed = []
    ∧ ((initDB.dbBegin.execW 5).setAutoCommit 0).pending = [5] := by
  refine ⟨rfl, rfl, rfl, rfl, rfl, rfl⟩

/-- C5 (amended): setting the interval to zero from a non-zero value
disarms the bouncer, disposes the auto hook and immediately commits any
open physical transaction; changing it between two distinct non-zero
values tears the old timer down and installs a fresh one at the new
period (so no firing at the old period remains possible); a call
passing the current value is a no-op. -/
theorem autoCommit_setter_semantics (s : DB) (ms : Nat) (hInv : Inv s) :
    (s.delay ≠ 0 →
        (s.setAutoCommit 0).timer = none
        ∧ Hook.auto ∉ (s.setAutoCommit 0).pre
        ∧ (s.setAutoCommit 0).active = false
        ∧ (s.setAutoCommit 0).committed = s.committed ++ s.pending
        ∧ (s.setAutoCommit 0).delay = 0)
    ∧ (s.delay ≠ 0 → ms ≠ 0 → ms ≠ s.delay →
        (s.setAutoCommit ms).timer = some ms
        ∧ (s.setAutoCommit ms).timer ≠ some s.delay
        ∧ (s.setAutoCommit ms).delay = ms)
    ∧ (s.delay = ms → s.setAutoCommit ms = s) := by
  obtain ⟨hpend, _, _, _⟩ := hInv
  refine ⟨?_, ?_, ?_⟩
  · intro hdz
    have hd0 : ¬ (s.delay = 0) := hdz
    have hstep : s.setAutoCommit 0 = ({ s with delay := 0 } : DB).stopAutoCommit := by
      simp [DB.setAutoCommit, hd0]
    rw [hstep]
    by_cases hact : s.active
    · have hcm : ({ s with delay := 0 } : DB).dbCommit =
          { s with delay := 0, log := s.log ++ [Event.engCommit],
                   committed := s.committed ++ s.pending, pending := [], active := false } := by
        simp [DB.dbCommit, hact]
      have hss : ({ s with delay := 0 } : DB).stopAutoCommit =
          { s with delay := 0, log := s.log ++ [Event.engCommit],
                   committed := s.committed ++ s.pending, pending := [], active := false,
                   timer := none, pre := removeHook s.pre Hook.auto } := by
        simp only [DB.stopAutoCommit, hcm]
      rw [hss]
      exact ⟨rfl, by simp [removeHook, List.mem_filter], rfl, rfl, rfl⟩
    · have hact2 : s.active = false := by simpa using hact
      have hcm : ({ s with delay := 0 } : DB).dbCommit = { s with delay := 0 } := by
        simp [DB.dbCommit, hact2]
      have hss : ({ s with delay := 0 } : DB).stopAutoCommit =
          { s with delay := 0, timer := none, pre := removeHook s.pre Hook.auto } := by
        simp only [DB.stopAutoCommit, hcm]
      rw [hss]
      refine ⟨rfl, by simp [removeHook, List.mem_filter], hact2, ?_, rfl⟩
      show s.committed = s.committed ++ s.pending
      rw [hpend hact2]
      simp
  · intro _ hms hne
    have hd : ¬ (s.delay = ms) := fun h => hne h.symm
    have hfields : (s.setAutoCommit ms).timer = some ms ∧ (s.setAutoCommit ms).delay = ms := by
      by_cases hact : s.active
      · constructor <;>
          simp [DB.setAutoCommit, hd, DB.stopAutoCommit, DB.dbCommit, hact,
            DB.startAutoCommit, hms]
      · constructor <;>
          simp [DB.setAutoCommit, hd, DB.stopAutoCommit, DB.dbCommit, hact,
            DB.startAutoCommit, hms]
    refine ⟨hfields.1, ?_, hfields.2⟩
    rw [hfields.1]
    intro habs
    exact hne (by injection habs)
  · intro hd
    simp [DB.setAutoCommit, hd]

/-- C5 witness: arm at 5, rearm at 3 (no firing at period 5 remains),
then disarm-and-commit from a pending write. -/
theorem autoCommit_setter_semantics_witness :
    ((initDB.setAutoCommit 5).setAutoCommit 3).timer = some 3
    ∧ ((initDB.setAutoCommit 5).setAutoCommit 3).timer ≠ some (initDB.setAutoCommit 5).delay
    ∧ ((initDB.setAutoCommit 5).setAutoCommit 3).delay = 3
    ∧ (((initDB.setAutoCommit 5).runW 4).setAutoCommit 0).timer = none
    ∧ (((initDB.setAutoCommit 5).runW 4).setAutoCommit 0).active = false
    ∧ (((initDB.setAutoCommit 5).runW 4).setAutoCommit 0).committed =
        ((initDB.setAutoCommit 5).runW 4).committed ++ ((initDB.setAutoCommit 5).runW 4).pending := by
  refine ⟨?_, ?_, ?_, ?_, ?_, ?_⟩
  · exact (autoCommit_setter_semantics (initDB.setAutoCommit 5) 3 (by decide)).2.1
      (by decide) (by decide) (by decide) |>.1
  · exact (autoCommit_setter_semantics (initDB.setAutoCommit 5) 3 (by decide)).2.1
      (by decide) (by decide) (by decide) |>.2.1
  · exact (autoCommit_setter_semantics (initDB.setAutoCommit 5) 3 (by decide)).2.1
      (by decide) (by decide) (by decide) |>.2.2
  · exact ((autoCommit_setter_semantics ((initDB.setAutoCommit 5).runW 4) 0 (by decide)).1
      (by decide)).1
  · exact ((autoCommit_setter_semantics ((initDB.setAutoCommit 5).runW 4) 0 (by decide)).1
      (by decide)).2.2.1
  · exact ((autoCommit_setter_semantics ((initDB.setAutoCommit 5).runW 4) 0 (by decide)).1
      (by decide)).2.2.2.1

/-! ## Claim C6 -/

/-- C6 counterexample: `exec` dispatches without touching the hook
registry — with a pre hook registered, the hook-invocation event never
appears in the log of an `exec` write, refuting the claim for the exec
path (the source comments and README call this out: exec bypasses
update and auto-commit processing). -/
theorem exec_bypasses_hooks :
    ((initDB.addUpdateHook Phase.pre (Hook.user 0)).execW 7).log = [Event.dispatch 7]
    ∧ (initDB.addUpdateHook Phase.pre (Hook.user 0)).pre = [Hook.user 0]
    ∧ Event.call Phase.pre 0 7 ∉ ((initDB.addUpdateHook Phase.pre (Hook.user 0)).execW 7).log := by
  refine ⟨rfl, rfl, by decide⟩

/-- C6 (amended): every write issued through `run` fires all registered
pre hooks before the statement is dispatched and all registered post
hooks after it; when a non-zero coalescing interval is armed the
pre-hook phase moreover opens a physical transaction (so the write
lands in the pending set) and signals the commit timer before the
dispatch.  `exec` dispatches with no hook processing at all. -/
theorem run_fires_hooks_around_dispatch (s : DB) (w : Nat) (hInv : Inv s) :
    (∃ preEvts postEvts,
        (s.runW w).log = s.log ++ preEvts ++ [Event.dispatch w] ++ postEvts
        ∧ (∀ i, Hook.user i ∈ s.pre → Event.call Phase.pre i w ∈ preEvts)
        ∧ (∀ i, Hook.user i ∈ s.post → Event.call Phase.post i w ∈ postEvts)
        ∧ (s.delay ≠ 0 →
            (s.firePhase Phase.pre w).active = true ∧ Event.timerSignal ∈ preEvts))
    ∧ (s.delay ≠ 0 → (s.runW w).pending = s.pending ++ [w])
    ∧ (s.execW w).log = s.log ++ [Event.dispatch w] := by
  obtain ⟨_, _, hhook, _⟩ := hInv
  obtain ⟨h1c, h1p, h1d, h1t, h1pre, h1post, h1a, evts1, h1log, h1call, h1ts, _, _⟩ :=
    fireHooks_spec s.pre Phase.pre w s
  have hrw : s.runW w =
      fireHooks ((fireHooks s.pre Phase.pre w s).dispatchW w).post Phase.post w
        ((fireHooks s.pre Phase.pre w s).dispatchW w) := by
    simp [DB.runW, DB.firePhase]
  have hdlog : ∀ x : DB, (x.dispatchW w).log = x.log ++ [Event.dispatch w] := by
    intro x
    by_cases hx : x.active <;> simp [DB.dispatchW, hx]
  have hdpost : ∀ x : DB, (x.dispatchW w).post = x.post := by
    intro x
    by_cases hx : x.active <;> simp [DB.dispatchW, hx]
  obtain ⟨_, _, _, _, _, _, _, evts3, h3log, h3call, _, _, _⟩ :=
    fireHooks_spec ((fireHooks s.pre Phase.pre w s).dispatchW w).post Phase.post w
      ((fireHooks s.pre Phase.pre w s).dispatchW w)
  refine ⟨⟨evts1, evts3, ?_, ?_, ?_, ?_⟩, ?_, ?_⟩
  · rw [hrw, h3log, hdlog, h1log]
  · intro i hi
    exact h1call i hi
  · intro i hi
    apply h3call
    rw [hdpost, h1post]
    exact hi
  · intro hdz
    have hauto : Hook.auto ∈ s.pre := hhook.mpr hdz
    constructor
    · show (fireHooks (if Phase.pre = Phase.pre then s.pre else s.post) Phase.pre w s).active = true
      simp only [if_pos rfl]
      exact h1a.mpr (Or.inr hauto)
    · exact h1ts hauto
  · intro hdz
    exact (runW_spec_tx s w (Or.inr (hhook.mpr hdz))).2.1
  · show (s.dispatchW w).log = s.log ++ [Event.dispatch w]
    by_cases hx : s.active <;> simp [DB.dispatchW, hx]

/-- C6 witness: with the auto hook armed (interval 5) and one user hook
on each list, the write lands in pending and the decomposition holds at
a concrete state. -/
theorem run_fires_hooks_around_dispatch_witness :
    (∃ preEvts postEvts,
        ((((initDB.setAutoCommit 5).addUpdateHook Phase.pre (Hook.user 1)).addUpdateHook
            Phase.post (Hook.user 2)).runW 9).log =
          (((initDB.setAutoCommit 5).addUpdateHook Phase.pre (Hook.user 1)).addUpdateHook
            Phase.post (Hook.user 2)).log ++ preEvts ++ [Event.dispatch 9] ++ postEvts
        ∧ (∀ i, Hook.user i ∈ (((initDB.setAutoCommit 5).addUpdateHook Phase.pre
            (Hook.user 1)).addUpdateHook Phase.post (Hook.user 2)).pre →
            Event.call Phase.pre i 9 ∈ preEvts)
        ∧ (∀ i, Hook.user i ∈ (((initDB.setAutoCommit 5).addUpdateHook Phase.pre
            (Hook.user 1)).addUpdateHook Phase.post (Hook.user 2)).post →
            Event.call Phase.post i 9 ∈ postEvts)
        ∧ ((((initDB.setAutoCommit 5).addUpdateHook Phase.pre (Hook.user 1)).addUpdateHook
              Phase.post (Hook.user 2)).delay ≠ 0 →
            (((((initDB.setAutoCommit 5).addUpdateHook Phase.pre (Hook.user 1)).addUpdateHook
              Phase.post (Hook.user 2))).firePhase Phase.pre 9).active = true
            ∧ Event.timerSignal ∈ preEvts))
    ∧ ((((initDB.setAutoCommit 5).addUpdateHook Phase.pre (Hook.user 1)).addUpdateHook
          Phase.post (Hook.user 2)).runW 9).pending =
        (((initDB.setAutoCommit 5).addUpdateHook Phase.pre (Hook.user 1)).addUpdateHook
          Phase.post (Hook.user 2)).pending ++ [9] :=
  ⟨(run_fires_hooks_around_dispatch
      (((initDB.setAutoCommit 5).addUpdateHook Phase.pre (Hook.user 1)).addUpdateHook
        Phase.post (Hook.user 2)) 9 (by decide)).1,
    (run_fires_hooks_around_dispatch
      (((initDB.setAutoCommit 5).addUpdateHook Phase.pre (Hook.user 1)).addUpdateHook
        Phase.post (Hook.user 2)) 9 (by decide)).2.1 (by decide)⟩

/-! ## Claim C9 -/

/-- C9 counterexample: `#removeUpdateHook` filters by function
identity, so when the same callback has been registered twice, one call
of either disposer removes both registrations — not "exactly the
callback registered by that call" (one occurrence should have
remained). -/
theorem disposer_removes_all_duplicates :
    removeHook (addHook (addHook [] (Hook.user 0)) (Hook.user 0)) (Hook.user 0) = []
    ∧ removeHook (addHook (addHook [] (Hook.user 0)) (Hook.user 0)) (Hook.user 0) ≠
        [Hook.user 0] := by
  refine ⟨rfl, by decide⟩

/-- C9 (amended): a disposer removes every registration of its
callback: it is idempotent (a second invocation removes nothing further
and cannot throw — it is a total filter), it never touches a different
callback (multiplicities preserved), it leaves no occurrence of its own
callback, and when the callback was registered exactly once it removes
exactly that registration. -/
theorem disposer_filter_semantics (l : List Hook) (h g : Hook) :
    removeHook (removeHook l h) h = removeHook l h
    ∧ (g ≠ h → (removeHook l h).count g = l.count g)
    ∧ (removeHook l h).count h = 0
    ∧ (l.count h = 0 → removeHook (addHook l h) h = l) := by
  refine ⟨?_, ?_, ?_, ?_⟩
  · simp [removeHook, List.filter_filter]
  · intro hgh
    show (l.filter (fun x => x ≠ h)).count g = l.count g
    apply List.count_filter
    simp [hgh]
  · rw [removeHook, List.count_eq_zero]
    intro hmem
    have h2 := (List.mem_filter.mp hmem).2
    simp at h2
  · intro hcount
    have hnotmem : h ∉ l := List.count_eq_zero.mp hcount
    have h1 : removeHook (addHook l h) h = removeHook l h ++ removeHook [h] h := by
      simp [removeHook, addHook, List.filter_append]
    have h2 : removeHook [h] h = [] := by
      simp [removeHook]
    have h3 : removeHook l h = l := by
      rw [removeHook, List.filter_eq_self]
      intro a ha
      simp only [ne_eq, decide_eq_true_eq]
      intro hah
      exact hnotmem (hah ▸ ha)
    rw [h1, h2, h3, List.append_nil]

/-- C9 witness: removing a distinct hook preserves others; a uniquely
registered hook is removed exactly. -/
theorem disposer_filter_semantics_witness :
    (removeHook [Hook.user 0, Hook.user 1] (Hook.user 1)).count (Hook.user 0) =
      ([Hook.user 0, Hook.user 1] : List Hook).count (Hook.user 0)
    ∧ removeHook (addHook [Hook.user 0] (Hook.user 1)) (Hook.user 1) = [Hook.user 0] :=
  ⟨(disposer_filter_semantics [Hook.user 0, Hook.user 1] (Hook.user 1) (Hook.user 0)).2.1
      (by decide),
    (disposer_filter_semantics [Hook.user 0] (Hook.user 1) (Hook.user 0)).2.2.2 (by decide)⟩

end Sqlite
